import Mathlib

/-!
Verification of the R2D2 dashboard core logic against its specification.

The definitions below are shallow embeddings of the TypeScript source:

* the search-query micro-parser, size-string parser and request-parameter
  builder of the bucket page (src/app/buckets/[name]/page.tsx),
* the client-side object filter of the same page,
* the object-listing route handler (src/app/api/buckets/[name]/objects/route.ts),
* the two file-size formatters (bucket page and upload modal),
* the upload manager of the upload modal (chunked parallel uploads,
  cancellation, retry),
* the app_config store used by the setup route (src/app/api/setup/r2/route.ts)
  together with the UNIQUE("key") constraint of the migration
  (src/drizzle/0000_remarkable_the_order.sql) and the credential reader
  (src/lib/r2.ts).

JavaScript numbers are modelled as exact rationals together with an explicit
NaN value where NaN propagation matters; Math.log is kept abstract (a
parameter of the formatters), since its IEEE-754 value is outside the
embedding.  Strings are processed as lists of characters mirroring the
character-level behaviour of the JS string and regex operations used by the
source.
-/

/-! ## Search-query parser (src/app/buckets/[name]/page.tsx, parseSearchQuery) -/

/-- The double-quote character, written via its code point. -/
def quoteChar : Char := Char.ofNat 34

/-- JS line terminators, which `.` in a regex does not match. -/
def isLineTerm (c : Char) : Bool :=
  c == Char.ofNat 10 || c == Char.ofNat 13 || c == Char.ofNat 8232 || c == Char.ofNat 8233

/-- Model of the replace call that strips one surrounding pair of double
quotes when the whole token is quoted (the dot of the regex group cannot
cross a line terminator). -/
def stripQuotePair (l : List Char) : List Char :=
  if decide (2 ≤ l.length) && (l.head? == some quoteChar) && (l.getLast? == some quoteChar)
      && ((l.drop 1).dropLast.all (fun c => !(isLineTerm c))) then
    (l.drop 1).dropLast
  else l

/-- Model of `String.prototype.replace` with a plain string pattern: remove
the first occurrence of `pat` (the source always replaces it by the empty
string). -/
def replaceFirst (pat : List Char) : List Char → List Char
  | [] => []
  | c :: cs =>
    if pat.isPrefixOf (c :: cs) then (c :: cs).drop pat.length
    else c :: replaceFirst pat cs

/-- Model of part.startsWith on a character list. -/
def listStartsWith (p : String) (l : List Char) : Bool :=
  p.data.isPrefixOf l

/-- Model of the includes substring test on character lists. -/
def listIsInfixOf (pat : List Char) : List Char → Bool
  | [] => pat.isEmpty
  | c :: cs => pat.isPrefixOf (c :: cs) || listIsInfixOf pat cs

/-- The record built by `parseSearchQuery`; the field `pref` mirrors the
source field `prefix` (a reserved word in Lean). -/
structure SearchParams where
  pref : Option String := none
  filename : Option String := none
  type : Option String := none
  minSize : Option String := none
  maxSize : Option String := none
  dateFrom : Option String := none
  dateTo : Option String := none
deriving DecidableEq

/-- The body of the `parts.forEach` loop of `parseSearchQuery`: classify one
token by its recognized operator, otherwise (for tokens without a colon)
treat it as both path-prefix and filename search; tokens with a colon and no
recognized operator fall through without touching the record. -/
def processSearchPart (params : SearchParams) (part : List Char) : SearchParams :=
  let cleanPart := stripQuotePair part
  if listStartsWith "type:" part then
    { params with type := some (String.mk (replaceFirst ("type:").data cleanPart)) }
  else if listStartsWith "size>" part then
    { params with minSize := some (String.mk (replaceFirst ("size>").data cleanPart)) }
  else if listStartsWith "size<" part then
    { params with maxSize := some (String.mk (replaceFirst ("size<").data cleanPart)) }
  else if listStartsWith "after:" part then
    { params with dateFrom := some (String.mk (replaceFirst ("after:").data cleanPart)) }
  else if listStartsWith "before:" part then
    { params with dateTo := some (String.mk (replaceFirst ("before:").data cleanPart)) }
  else if !(part.contains ':') then
    { params with pref := some (String.mk cleanPart), filename := some (String.mk cleanPart) }
  else params

/-- A character that `[^\s"]` matches. -/
def isTokenChar (c : Char) : Bool := !(c.isWhitespace) && !(c == quoteChar)

/-- Scan up to the next double quote; `none` when the quote is unbalanced. -/
def breakAtQuote : List Char → Option (List Char × List Char)
  | [] => none
  | c :: cs =>
    if c == quoteChar then some ([], cs)
    else match breakAtQuote cs with
      | some (a, b) => some (c :: a, b)
      | none => none

/-- One match of the alternative `"[^"]*"`, quotes included. -/
def takeQuoted : List Char → Option (List Char × List Char)
  | [] => none
  | c :: cs =>
    if c == quoteChar then
      match breakAtQuote cs with
      | some (inner, rest) => some (quoteChar :: inner ++ [quoteChar], rest)
      | none => none
    else none

/-- One repeat of `(?:[^\s"]+|"[^"]*")`. -/
def takePiece (l : List Char) : Option (List Char × List Char) :=
  let run := l.takeWhile isTokenChar
  if run.isEmpty then takeQuoted l
  else some (run, l.drop run.length)

/-- The `+` over the repeats; the fuel bounds the number of repeats and is
always instantiated with the length of the input, which suffices because
every repeat consumes at least one character. -/
def takeTokenAux : Nat → List Char → List Char × List Char
  | 0, l => ([], l)
  | fuel + 1, l =>
    match takePiece l with
    | some (p, rest) =>
      let (more, rest2) := takeTokenAux fuel rest
      (p ++ more, rest2)
    | none => ([], l)

/-- The global scan of `query.match(/(?:[^\s"]+|"[^"]*")+/g)`: at every
position try a token match, otherwise advance one character. -/
def tokenizeAux : Nat → List Char → List (List Char)
  | 0, _ => []
  | _ + 1, [] => []
  | fuel + 1, c :: cs =>
    let (tok, rest) := takeTokenAux (fuel + 1) (c :: cs)
    if tok.isEmpty then tokenizeAux fuel cs
    else tok :: tokenizeAux fuel rest

/-- Token list of a query string. -/
def tokenizeQuery (q : String) : List (List Char) :=
  tokenizeAux (q.data.length + 1) q.data

/-- The parseSearchQuery function: tokenize, then fold the classification over the
tokens starting from the empty record. -/
def parseSearchQuery (q : String) : SearchParams :=
  (tokenizeQuery q).foldl processSearchPart {}

/-! ## Size-string parser (src/app/buckets/[name]/page.tsx, parseSizeString) -/

/-- Exact integer value of a plain decimal digit string: the mathematical
value that parseInt computes before rounding it to a double. The rounding
itself is `jsParseInt` below. -/
def digitsToNat (l : List Char) : Nat :=
  l.foldl (fun n c => 10 * n + (c.toNat - 48)) 0

/-- The multipliers table keyed by the lowercased unit, with the empty match
defaulting to the unit b exactly as the destructuring default of the source
does; `none` means the candidate unit is not matched by the regex group. -/
def unitMult (l : List Char) : Option Nat :=
  let low := l.map Char.toLower
  if low = [] then some 1
  else if low = ['b'] then some 1
  else if low = ['k', 'b'] then some 1024
  else if low = ['m', 'b'] then some 1048576
  else if low = ['g', 'b'] then some 1073741824
  else if low = ['t', 'b'] then some 1099511627776
  else none

/-- Floor base-2 logarithm with explicit fuel (one unit per halving), so the
kernel can evaluate it on concrete inputs. -/
def floorLog2Aux : Nat → Nat → Nat
  | 0, _ => 0
  | fuel + 1, n => if n < 2 then 0 else floorLog2Aux fuel (n / 2) + 1

/-- Floor base-2 logarithm; the fuel n covers every halving chain from n. -/
def floorLog2 (n : Nat) : Nat := floorLog2Aux n n

/-- Rounding of an exact nonnegative integer to the value of the nearest
IEEE-754 binary64 double, round to nearest with ties to even; `none` is
Infinity (overflow, values rounding to 2 to the 1024, written 16 to the
256 so the literal evaluates). Integers below 2 to the 53 are exact;
above, the integer is rounded at the unit in the last place of its binade,
which is 2 to the (floorLog2 n - 52). Every double arising here is an
integer, so doubles are carried as their exact Nat values. -/
def roundToDouble (n : Nat) : Option Nat :=
  if n < 2 ^ 53 then some n
  else
    let e := floorLog2 n - 52
    let q := n / 2 ^ e
    let r := n % 2 ^ e
    let half := 2 ^ (e - 1)
    let rounded := (if half < r ∨ (r = half ∧ q % 2 = 1) then q + 1 else q) * 2 ^ e
    if rounded < 16 ^ 256 then some rounded else none

/-- Model of parseInt on a digit string: the exact mathematical value of the
digits, rounded to the nearest double. -/
def jsParseInt (ds : List Char) : Option Nat :=
  roundToDouble (digitsToNat ds)

/-- IEEE multiplication of an integral double by one of the power-of-1024
multipliers: scaling an exact integer by a power of two only shifts the
exponent, so the product is exact unless it overflows to Infinity. -/
def jsMulPow2 (x : Option Nat) (m : Nat) : Option Nat :=
  match x with
  | none => none
  | some d => if d * m < 16 ^ 256 then some (d * m) else none

/-- Number of decimal digits of a natural number. -/
def digitsCount (n : Nat) : Nat :=
  (Nat.repr n).length

/-- Candidate values with k significant decimal digits nearest to p: the two
neighbouring roundings of p to k digits (or p itself once k reaches the
digit count of p). A k-digit decimal reproducing the double p on re-reading
exists only if one of these two does, since the set of reals rounding to p
is an interval around p. -/
def tsCandidates (p k : Nat) : List Nat :=
  if digitsCount p ≤ k then [p]
  else
    [p / 10 ^ (digitsCount p - k) * 10 ^ (digitsCount p - k),
     p / 10 ^ (digitsCount p - k) * 10 ^ (digitsCount p - k) + 10 ^ (digitsCount p - k)]

/-- Among the candidates, keep those whose value reads back as exactly the
double p, and choose the closest one, breaking a tie towards the even
significand digit (the correctly rounded shortest output, as produced by
the V8 formatter the app runs on). -/
def pickCandidate (p pw : Nat) (cs : List Nat) : Option Nat :=
  match cs.filter (fun x => roundToDouble x == some p) with
  | [] => none
  | [c] => some c
  | c1 :: c2 :: _ =>
    some (if p - c1 < c2 - p then c1
          else if c2 - p < p - c1 then c2
          else if c1 / pw % 2 = 0 then c1 else c2)

/-- Search for the least number of significant digits whose best candidate
round-trips to the double p, as the ECMAScript Number-to-String algorithm
specifies; returns the value of the chosen decimal. Fuel bounds the digit
counts tried; at k = digitsCount p the candidate p itself always
round-trips, so the fallback is never reached in use. -/
def searchK : Nat → Nat → Nat → Nat
  | 0, p, _ => p
  | fuel + 1, p, k =>
    match pickCandidate p (if digitsCount p ≤ k then 1 else 10 ^ (digitsCount p - k))
        (tsCandidates p k) with
    | some c => c
    | none => searchK fuel p (k + 1)

/-- Exponential rendering of an integral double value at or above 10 to the
21, as Number.prototype.toString switches to: significand digits without
trailing zeros, a dot when more than one digit remains, then e+ and the
decimal exponent. -/
def expRepr (c : Nat) : String :=
  match ((Nat.repr c).data.reverse.dropWhile (fun ch => ch == '0')).reverse with
  | [] => "0"
  | [d] => String.mk [d] ++ "e+" ++ Nat.repr ((Nat.repr c).data.length - 1)
  | d :: restD => String.mk [d] ++ "." ++ String.mk restD ++ "e+" ++
      Nat.repr ((Nat.repr c).data.length - 1)

/-- Model of Number.prototype.toString on the integral doubles produced
here: Infinity prints as the word Infinity; a finite value prints the
shortest decimal that reads back as the same double, in positional
notation below 10 to the 21 and in exponential notation above. -/
def jsDoubleToString (x : Option Nat) : String :=
  match x with
  | none => "Infinity"
  | some p =>
    if searchK (digitsCount p + 1) p 1 < 10 ^ 21 then
      Nat.repr (searchK (digitsCount p + 1) p 1)
    else expRepr (searchK (digitsCount p + 1) p 1)

/-- The parseSizeString body on the character list of the input: the anchored regex
`^(\d+)(b|kb|mb|gb|tb)?$` takes the maximal digit prefix (no backtracking
can help, the units contain no digits), requires it nonempty, and the
remainder must be one of the units (or empty); the matched digits then run
through the float pipeline of the source, parseInt rounding to a double,
an exact power-of-two multiply, and the double-to-string rendering. -/
def parseSizeChars (l : List Char) : Option String :=
  let ds := l.takeWhile Char.isDigit
  let rest := l.drop ds.length
  if ds = [] then none
  else
    match unitMult rest with
    | some m => some (jsDoubleToString (jsMulPow2 (jsParseInt ds) m))
    | none => none

/-- The parseSizeString function on strings. -/
def parseSizeString (s : String) : Option String :=
  parseSizeChars s.data

/-! ## Request parameters built by the page queryFn
(src/app/buckets/[name]/page.tsx, lines 212-259) -/

/-- JS truthiness of an optional string value: present and nonempty. -/
def jsTruthyStr : Option String → Bool
  | some s => !s.isEmpty
  | none => false

/-- Model of lastIndexOf: index of the last occurrence, `-1` when absent. -/
def lastIndexOfChar (c : Char) (l : List Char) : Int :=
  match ((List.range l.length).filter (fun i => l.get? i == some c)).getLast? with
  | some i => (i : Int)
  | none => -1

/-- The URL parameters the queryFn sends to the objects route; the field
`pref` mirrors the query key `prefix`. -/
structure ObjectQueryParams where
  pref : Option String := none
  filename : Option String := none
  fileType : Option String := none
  minSize : Option String := none
  maxSize : Option String := none
  dateFrom : Option String := none
  dateTo : Option String := none
deriving DecidableEq

/-- The prefix/filename splitting of the queryFn: a leading slash makes a
pure prefix search; otherwise the term is a filename search, with a prefix
added only up to the last slash of a path-like term or for terms of at most
two characters. Returns the `prefix` and `filename` parameters. -/
def searchPrefParams (pref : Option String) : Option String × Option String :=
  if jsTruthyStr pref then
    let p := pref.getD ""
    if listStartsWith "/" p.data then (some (String.mk (p.data.drop 1)), none)
    else
      let fn := some p
      if p.data.contains '/' then
        let i := lastIndexOfChar '/' p.data
        if 0 < i then (some (String.mk (p.data.take (i.toNat + 1))), fn) else (none, fn)
      else if decide (p.data.length ≤ 2) then (some p, fn)
      else (none, fn)
  else (none, none)

/-- The full parameter record built by the queryFn. The source sets the
parameters one after another on a URLSearchParams object; since the keys are
distinct the record below collects the same assignments field by field. A
size parameter is only set when `parseSizeString` succeeds (a failed parse
is dropped silently). -/
def buildObjectQueryParams (ps : SearchParams) : ObjectQueryParams :=
  { pref := (searchPrefParams ps.pref).1
    filename := (searchPrefParams ps.pref).2
    fileType := if jsTruthyStr ps.type then ps.type else none
    minSize := if jsTruthyStr ps.minSize then parseSizeString ((ps.minSize).getD "") else none
    maxSize := if jsTruthyStr ps.maxSize then parseSizeString ((ps.maxSize).getD "") else none
    dateFrom := if jsTruthyStr ps.dateFrom then ps.dateFrom else none
    dateTo := if jsTruthyStr ps.dateTo then ps.dateTo else none }

/-! ## Client-side object filter (src/app/buckets/[name]/page.tsx, filteredObjects) -/

/-- An object row as the page receives it from the objects route. -/
structure BucketObject where
  key : String
  size : Nat
  lastModified : String
  etag : String
deriving DecidableEq

/-- The `typeMatches` table of the client-side filter. -/
def typeMatches (ft : String) : Option (List String) :=
  if ft = "images" then some ["jpg", "jpeg", "png", "gif", "webp", "svg"]
  else if ft = "documents" then some ["pdf", "doc", "docx", "txt", "rtf", "odt", "md", "csv"]
  else if ft = "code" then some ["js", "ts", "py", "java", "cpp", "html", "css", "json", "yaml", "yml"]
  else if ft = "media" then some ["mp3", "mp4", "avi", "mov", "wav"]
  else if ft = "archives" then some ["zip", "rar", "7z", "tar", "gz"]
  else none

/-- Extension of a key in the client filter (lowercase, split on dots, last
segment): the lowercased
segment after the last dot (the whole key when it has no dot). -/
def extOf (key : String) : String :=
  String.mk (((key.data.map Char.toLower).splitOn '.').getLastD [])

/-- The predicate of the `filteredObjects` filter. `toNum` stands for the JS
`Number` conversion (`none` = NaN) and `parseDate` for `new Date` plus
`getTime` (`none` = invalid date); both only matter to branches the size and
date filters take, and an invalid bound skips its filter exactly as the
source isNaN/isValidDate guards do. -/
def clientPass (fileType minSize maxSize dateFrom dateTo : String)
    (toNum : String → Option ℚ) (parseDate : String → Option Int)
    (obj : BucketObject) : Bool :=
  (if fileType.isEmpty then true
   else match typeMatches fileType with
     | some exts => exts.contains (extOf obj.key)
     | none => false) &&
  (if minSize.isEmpty then true
   else match toNum minSize with
     | some m => !(decide ((obj.size : ℚ) < m))
     | none => true) &&
  (if maxSize.isEmpty then true
   else match toNum maxSize with
     | some m => !(decide (m < (obj.size : ℚ)))
     | none => true) &&
  (if dateFrom.isEmpty then true
   else match parseDate dateFrom with
     | some d => !(!(obj.lastModified.isEmpty) && (match parseDate obj.lastModified with
         | some t => decide (t < d)
         | none => false))
     | none => true) &&
  (if dateTo.isEmpty then true
   else match parseDate dateTo with
     | some d => !(!(obj.lastModified.isEmpty) && (match parseDate obj.lastModified with
         | some t => decide (d < t)
         | none => false))
     | none => true)

/-- The filteredObjects computation restricted to its filtering content (the page applies
it to the sorted object list; sorting does not change membership). -/
def filteredObjects (fileType minSize maxSize dateFrom dateTo : String)
    (toNum : String → Option ℚ) (parseDate : String → Option Int)
    (objs : List BucketObject) : List BucketObject :=
  objs.filter (clientPass fileType minSize maxSize dateFrom dateTo toNum parseDate)

/-! ## Objects route handler (src/app/api/buckets/[name]/objects/route.ts, getObjects) -/

/-- One entry of the upstream `ListObjectsV2` page; every field is optional
exactly as in the SDK response type. `LastModified` is an epoch timestamp
standing for the SDK Date. -/
structure RemoteObject where
  Key : Option String := none
  Size : Option Nat := none
  LastModified : Option Int := none
  ETag : Option String := none
deriving DecidableEq

/-- The upstream list page. -/
structure UpstreamPage where
  Contents : List RemoteObject := []
  KeyCount : Option Nat := none
  NextContinuationToken : Option String := none
deriving DecidableEq

/-- The already-decoded query parameters of the route (empty string means
the parameter is absent, as in the source defaults; size bounds and date
bounds are `none` when absent or, for dates, invalid). -/
structure ObjectsRequestFilters where
  filename : String := ""
  fileType : String := ""
  minSize : Option Int := none
  maxSize : Option Int := none
  dateFrom : Option Int := none
  dateTo : Option Int := none
deriving DecidableEq

/-- The `fileTypeMap` of the route handler. -/
def fileTypeMap (ft : String) : Option (List String) :=
  if ft = "image" then some ["jpg", "jpeg", "png", "gif", "webp", "svg"]
  else if ft = "document" then some ["pdf", "doc", "docx", "xls", "xlsx", "ppt", "pptx", "txt"]
  else if ft = "video" then some ["mp4", "webm", "avi", "mov", "flv"]
  else if ft = "audio" then some ["mp3", "wav", "ogg", "flac"]
  else if ft = "archive" then some ["zip", "rar", "tar", "gz", "7z"]
  else none

/-- Extension of a key in the route handler: split on dots, last segment,
lowercased. -/
def extOfServer (key : String) : String :=
  String.mk (((key.data.splitOn '.').getLastD []).map Char.toLower)

/-- An object row of the route response. `lastModified` keeps the epoch
timestamp standing for the ISO string (empty when absent). -/
structure ApiObject where
  key : String
  size : Nat
  lastModified : Option Int
  etag : String
deriving DecidableEq

/-- The JSON body of a successful GET objects response. -/
structure ApiListResponse where
  objects : List ApiObject
  nextContinuationToken : Option String
  totalObjects : Nat
deriving DecidableEq

/-- The filtering and response shaping of `getObjects` after the upstream
call returned `page`: filename, type, size and date post-filters over the
page contents, then the transform, with `totalObjects` taken from the
upstream `KeyCount || 0`. -/
def getObjectsModel (f : ObjectsRequestFilters) (page : UpstreamPage) : ApiListResponse :=
  let objects0 : List RemoteObject := page.Contents
  let objects1 := if f.filename.isEmpty then objects0 else
    objects0.filter (fun (o : RemoteObject) => match o.Key with
      | some k => listIsInfixOf (f.filename.data.map Char.toLower) (k.data.map Char.toLower)
      | none => false)
  let objects2 := if f.fileType.isEmpty then objects1 else
    let extensions := (fileTypeMap f.fileType).getD [f.fileType]
    objects1.filter (fun (o : RemoteObject) => extensions.contains (extOfServer ((o.Key).getD "")))
  let objects3 := match f.minSize with
    | some m => objects2.filter (fun (o : RemoteObject) => decide (((((o.Size).getD 0) : Nat) : Int) ≥ m))
    | none => objects2
  let objects4 := match f.maxSize with
    | some m => objects3.filter (fun (o : RemoteObject) => decide (((((o.Size).getD 0) : Nat) : Int) ≤ m))
    | none => objects3
  let objects5 := match f.dateFrom with
    | some d => objects4.filter (fun (o : RemoteObject) => match o.LastModified with
        | some t => decide (t ≥ d)
        | none => false)
    | none => objects4
  let objects6 := match f.dateTo with
    | some d => objects5.filter (fun (o : RemoteObject) => match o.LastModified with
        | some t => decide (t ≤ d)
        | none => false)
    | none => objects5
  { objects := objects6.map (fun (o : RemoteObject) =>
      { key := (o.Key).getD "", size := (o.Size).getD 0, lastModified := o.LastModified,
        etag := String.mk (((o.ETag).getD "").data.filter (fun c => !(c == quoteChar))) }),
    nextContinuationToken := page.NextContinuationToken,
    totalObjects := (page.KeyCount).getD 0 }

/-! ## File-size formatters
(src/app/buckets/[name]/page.tsx, formatFileSize;
upload modal FileUploadModal.tsx, formatFileSize)

JS numbers are exact rationals plus NaN.  Infinities are not needed: both
formatters return before any operation that could produce one (`Math.log` is
only reached on strictly positive finite input).  `Math.log` itself is an
abstract parameter `jsLog`; the theorems state which facts about its value
they use. -/

/-- A JS number: NaN or an exact value. -/
inductive JSNum where
  | nan : JSNum
  | val (q : ℚ) : JSNum
deriving DecidableEq

/-- Model of isNaN. -/
def jsIsNaN : JSNum → Bool
  | .nan => true
  | .val _ => false

/-- Strict equality of a JS number with zero. -/
def jsStrictEqZero : JSNum → Bool
  | .nan => false
  | .val q => decide (q = 0)

/-- Comparison with zero (false on NaN). -/
def jsLtZero : JSNum → Bool
  | .nan => false
  | .val q => decide (q < 0)

/-- Division; NaN propagates.  Division by zero (an infinity in JS) is
unreachable in the statements below, which require a nonzero denominator. -/
def jsDiv : JSNum → JSNum → JSNum
  | .val a, .val b => .val (a / b)
  | _, _ => .nan

/-- Model of Math.floor; NaN propagates. -/
def jsFloor : JSNum → JSNum
  | .nan => .nan
  | .val q => .val ((Rat.floor q : Int) : ℚ)

/-- Model of Math.min with a constant second argument; NaN propagates. -/
def jsMinConst : JSNum → ℚ → JSNum
  | .nan, _ => .nan
  | .val q, b => .val (min q b)

/-- Natural powers of a rational. -/
def ratPowNat (q : ℚ) : Nat → ℚ
  | 0 => 1
  | n + 1 => q * ratPowNat q n

/-- Model of Math.pow; NaN propagates and only integer exponents are
representable (the formatters only reach integer or NaN exponents). -/
def jsPow (k : ℚ) : JSNum → JSNum
  | .nan => .nan
  | .val e =>
    if decide (e.den = 1) then
      if decide (0 ≤ e.num) then .val (ratPowNat k e.num.toNat)
      else .val (1 / ratPowNat k (-e.num).toNat)
    else .nan

/-- Model of Math.log lifted to JS numbers; zero and negative arguments are
unreachable (both formatters return before calling it on them). -/
def jsLogN (f : ℚ → ℚ) : JSNum → JSNum
  | .nan => .nan
  | .val q => if decide (0 < q) then .val (f q) else .nan

/-- Two-digit padding. -/
def pad2 (m : Nat) : String :=
  if m < 10 then "0" ++ Nat.repr m else Nat.repr m

/-- Render `m / 100` with exactly two decimals. -/
def natFixed2 (m : Nat) : String :=
  Nat.repr (m / 100) ++ "." ++ pad2 (m % 100)

/-- Model of toFixed with two decimals on an exact value: round to the nearest multiple of
1/100, ties away from the smaller value, then print two decimals. -/
def ratToFixed2 (q : ℚ) : String :=
  let n : Int := Rat.floor (q * 100 + 1 / 2)
  if n < 0 then "-" ++ natFixed2 (-n).toNat else natFixed2 n.toNat

/-- Model of toFixed with two decimals on a JS number; on NaN it is the string `NaN`. -/
def jsToFixed2 : JSNum → String
  | .nan => "NaN"
  | .val q => ratToFixed2 q

/-- Model of parseFloat on the decimal strings produced by toFixed: an integer
part, optionally a dot and a fraction; anything else (such as `NaN`) parses
to NaN. -/
def parseDecChars (l : List Char) : Option ℚ :=
  let ip := l.takeWhile Char.isDigit
  let rest := l.drop ip.length
  if ip = [] then none
  else match rest with
    | [] => some ((digitsToNat ip : Nat) : ℚ)
    | c :: frac =>
      if c = '.' then
        let fd := frac.takeWhile Char.isDigit
        some (((digitsToNat ip : Nat) : ℚ) + ((digitsToNat fd : Nat) : ℚ) / ratPowNat 10 fd.length)
      else some ((digitsToNat ip : Nat) : ℚ)

/-- Model of parseFloat on a string. -/
def jsParseFloat (s : String) : JSNum :=
  match s.data with
  | '-' :: rest =>
    (match parseDecChars rest with
     | some q => .val (-q)
     | none => .nan)
  | l =>
    (match parseDecChars l with
     | some q => .val q
     | none => .nan)

/-- Shortest-decimal rendering of a nonnegative value whose denominator
divides 100 (the only values that reach it: results of
`parseFloat(x.toFixed(2))`): JS prints integers without a decimal point and
drops a trailing zero decimal. -/
def ratToStrAux (q : ℚ) : String :=
  if q.den = 1 then Nat.repr q.num.toNat
  else
    let m := (Rat.floor (q * 100)).toNat
    if m % 10 = 0 then Nat.repr (m / 100) ++ "." ++ Nat.repr ((m / 10) % 10)
    else Nat.repr (m / 100) ++ "." ++ pad2 (m % 100)

/-- String coercion of a JS number in template or `+` concatenation. -/
def jsNumToString : JSNum → String
  | .nan => "NaN"
  | .val q => if q < 0 then "-" ++ ratToStrAux (-q) else ratToStrAux q

/-- Array indexing coerced to a string: a NaN, negative, fractional or
out-of-range index reads `undefined`. -/
def jsIndexN (sizes : List String) : JSNum → String
  | .nan => "undefined"
  | .val q =>
    if decide (q.den = 1) && decide (0 ≤ q.num) && decide (q.num.toNat < sizes.length) then
      sizes.getD q.num.toNat "undefined"
    else "undefined"

/-- The bucket-page `formatFileSize`: zero, negative and NaN input return
`0 B`; otherwise the unit index is `min(floor(log(bytes)/log(1024)), 5)` and
the output is the `toFixed(2)` quotient followed by the unit. -/
def formatFileSize (jsLog : ℚ → ℚ) (bytes : JSNum) : String :=
  if jsStrictEqZero bytes then "0 B"
  else if jsLtZero bytes || jsIsNaN bytes then "0 B"
  else
    let sizes : List String := ["B", "KB", "MB", "GB", "TB", "PB"]
    let i := jsFloor (jsDiv (jsLogN jsLog bytes) (jsLogN jsLog (.val 1024)))
    let index := jsMinConst i 5
    jsToFixed2 (jsDiv bytes (jsPow 1024 index)) ++ " " ++ jsIndexN sizes index

/-- The upload-modal `formatFileSize`: zero and negative input return
`0 Bytes`; there is no NaN check, so a NaN input flows through the whole
pipeline (`floor`, `min`, `pow`, division, `toFixed`, `parseFloat`, array
index) as NaN; the result is wrapped in `parseFloat`, which strips trailing
zero decimals. -/
def formatFileSizeModal (jsLog : ℚ → ℚ) (bytes : JSNum) : String :=
  if jsStrictEqZero bytes then "0 Bytes"
  else
    let k : ℚ := 1024
    let sizes : List String := ["Bytes", "KB", "MB", "GB", "TB"]
    if jsLtZero bytes then "0 Bytes"
    else
      let i := jsFloor (jsDiv (jsLogN jsLog bytes) (jsLogN jsLog (.val k)))
      let index := jsMinConst i 4
      jsNumToString (jsParseFloat (jsToFixed2 (jsDiv bytes (jsPow k index)))) ++ " " ++
        jsIndexN sizes index

/-- Base value of the concrete `Math.log` stand-in below. -/
def jsLogStubBase : ℚ := 7

/-- A concrete stand-in for `Math.log` used by witnesses: any function whose
values at 1024 and 1024^3 make the unit-index computation come out as the
exact logarithm does. -/
def jsLogStub : ℚ → ℚ :=
  fun q =>
    if q = 1024 then jsLogStubBase
    else if q = 1073741824 then 3 * jsLogStubBase
    else 0

/-! ## Upload manager (upload modal FileUploadModal.tsx)

The modal keeps a list of `UploadingFile` entries in React state and a map
of in-flight XHR requests keyed by file id.  `uploadInParallel` walks the
selected files in consecutive `slice(i, i + maxParallel)` chunks and awaits
`Promise.all` of the chunk before starting the next one; within a chunk each
`uploadFile` first marks its file `uploading`, reports progress events, and
settles it to `success` or `error`.  Runs of this scheduler are modelled as
event traces: `ChunkExec` describes the possible interleavings of one chunk
(starts drawn from the not-yet-started set, progress and settle only for
in-flight files), and `ChunkedRun` concatenates complete chunk executions,
which encodes that chunk k+1 starts only after every upload of chunk k has
settled.  The model allows even more interleavings than the event loop can
produce, so the concurrency bound proved over it covers every real run. -/

/-- The `status` field of an `UploadingFile`. -/
inductive UStatus where
  | pending
  | uploading
  | success
  | error
deriving DecidableEq

/-- One entry of the modal `files` state (the `File` object is reduced to
its name and size, the only parts the manager reads). -/
structure UploadingFile where
  id : String
  name : String
  size : Nat
  progress : Nat
  status : UStatus
  error : Option String := none
deriving DecidableEq

/-- The slice-based chunking loop of uploadInParallel, written with explicit
fuel (always called with enough, and every step consumes at least one
element) so that it evaluates by kernel reduction. -/
def chunksOfAux {α : Type} (n : Nat) : Nat → List α → List (List α)
  | 0, _ => []
  | _ + 1, [] => []
  | fuel + 1, x :: xs => ((x :: xs).take n) :: chunksOfAux n fuel (xs.drop (n - 1))

/-- The chunk partition of a list: consecutive runs of `n` elements, the
last chunk possibly shorter. -/
def chunksOf {α : Type} (n : Nat) (l : List α) : List (List α) :=
  chunksOfAux n (l.length + 1) l

/-- Observable state-changing events of one upload: the `setFiles` call at
the head of `uploadFile` (start), a progress update, and the terminal
`setFiles` of `onload`/`onerror`/`onabort` (settle, with success flag and
error message). -/
inductive UploadEv where
  | start (id : String)
  | progress (id : String) (p : Nat)
  | settle (id : String) (ok : Bool) (msg : String)
deriving DecidableEq

/-- Effect of one event on one file entry, exactly the `prev.map(f => ...)`
updater the source passes to `setFiles`. -/
def applyEv1 (e : UploadEv) (f : UploadingFile) : UploadingFile :=
  match e with
  | .start i => if f.id = i then { f with status := .uploading } else f
  | .progress i p => if f.id = i then { f with progress := p } else f
  | .settle i ok msg =>
    if f.id = i then
      (if ok then { f with status := .success, progress := 100 }
       else { f with status := .error, error := some msg })
    else f

/-- One `setFiles` update of the whole list. -/
def applyEvState (st : List UploadingFile) (e : UploadEv) : List UploadingFile :=
  st.map (applyEv1 e)

/-- State after a trace of events. -/
def applyTrace (t : List UploadEv) (st : List UploadingFile) : List UploadingFile :=
  t.foldl applyEvState st

/-- The same trace applied to a single entry. -/
def applyEvF (t : List UploadEv) (f : UploadingFile) : UploadingFile :=
  t.foldl (fun g e => applyEv1 e g) f

/-- Number of entries currently in the `uploading` status. -/
def countUploading (st : List UploadingFile) : Nat :=
  st.countP (fun f => decide (f.status = UStatus.uploading))

/-- Possible event traces of one chunk.  `ChunkExec ns fl t`: with the files
of `ns` not yet started and those of `fl` in flight, `t` is a possible
remaining trace; a chunk `c` executes exactly the traces of
`ChunkExec c [] t`.  Every file of the chunk starts once and settles once,
a settle (or progress) happens only while the file is in flight, and the
trace ends with every file settled. -/
inductive ChunkExec : List String → List String → List UploadEv → Prop where
  | done : ChunkExec [] [] []
  | start {ns fl t} (i : String) (hi : i ∈ ns)
      (h : ChunkExec (ns.erase i) (i :: fl) t) : ChunkExec ns fl (UploadEv.start i :: t)
  | progress {ns fl t} (i : String) (p : Nat) (hi : i ∈ fl)
      (h : ChunkExec ns fl t) : ChunkExec ns fl (UploadEv.progress i p :: t)
  | settle {ns fl t} (i : String) (ok : Bool) (msg : String) (hi : i ∈ fl)
      (h : ChunkExec ns (fl.erase i) t) : ChunkExec ns fl (UploadEv.settle i ok msg :: t)

/-- Traces of `uploadInParallel`: the concatenation of one complete
execution per chunk, in chunk order (`await Promise.all` separates them). -/
inductive ChunkedRun : List (List String) → List UploadEv → Prop where
  | nil : ChunkedRun [] []
  | cons {c cs t trest} (hc : ChunkExec c [] t) (h : ChunkedRun cs trest) :
      ChunkedRun (c :: cs) (t ++ trest)

/-- The modal state seen by `cancelUpload`: the `files` React state and the
ids holding an in-flight XHR in `activeUploads.current`. -/
structure UploadModalState where
  files : List UploadingFile
  active : List String
deriving DecidableEq

/-- The cancelUpload handler: abort and drop the in-flight request stored under
`id`, then mark the file errored with the cancellation reason. -/
def cancelUpload (id : String) (st : UploadModalState) : UploadModalState :=
  { active := st.active.filter (fun j => decide (j ≠ id)),
    files := st.files.map (fun f =>
      if f.id = id then { f with status := .error, error := some "Upload cancelled" } else f) }

/-- The retryFailedUploads action: the first component is the new `files` state (every
errored entry reset to pending with zero progress and no error message), the
second the `failedFiles` list captured before the reset and handed to
`uploadInParallel`. -/
def retryFailedUploads (files : List UploadingFile) :
    List UploadingFile × List UploadingFile :=
  (files.map (fun f =>
     if f.status = UStatus.error
     then { f with status := UStatus.pending, progress := 0, error := none } else f),
   files.filter (fun f => decide (f.status = UStatus.error)))

/-! ## app_config store and setup route
(src/app/api/setup/r2/route.ts, src/db/schema.ts,
src/drizzle/0000_remarkable_the_order.sql, src/lib/r2.ts) -/

/-- A row of the `app_config` table (id and timestamps omitted; rows are
kept in insertion order). -/
structure ConfigRow where
  key : String
  value : String
  isSecret : Bool
deriving DecidableEq

/-- An insert into app_config under the UNIQUE key constraint
declared by the schema and the migration: a duplicate key raises a unique
violation (`none`), otherwise the row is appended. -/
def insertAppConfig (tbl : List ConfigRow) (r : ConfigRow) : Option (List ConfigRow) :=
  if tbl.any (fun row => row.key == r.key) then none else some (tbl ++ [r])

/-- Whether the posted key names a secret (it contains KEY or TOKEN). -/
def isSecretKey (k : String) : Bool :=
  listIsInfixOf ("KEY").data k.data || listIsInfixOf ("TOKEN").data k.data

/-- The row the setup route builds for one posted config entry. -/
def configRowOf (kv : String × String) : ConfigRow :=
  ⟨kv.1, kv.2, isSecretKey kv.1⟩

/-- The `for (const [key, value] of Object.entries(config))` insert loop:
inserts one row per entry with no existence check; the first unique
violation throws, aborting the loop with the rows inserted so far kept
(there is no transaction). -/
def runInserts : List ConfigRow → List (String × String) → Bool × List ConfigRow
  | tbl, [] => (true, tbl)
  | tbl, kv :: rest =>
    match insertAppConfig tbl (configRowOf kv) with
    | some t2 => runInserts t2 rest
    | none => (false, tbl)

/-- The `setup_completed` marker row. -/
def setupCompletedRow : ConfigRow := ⟨"setup_completed", "true", false⟩

/-- The credential-persistence step of POST /api/setup/r2 (after the
connectivity check): insert every posted entry, then the completion marker;
any thrown unique violation is caught by the handler, which then reports
failure (first component `false`). -/
def setupR2Persist (tbl : List ConfigRow) (config : List (String × String)) :
    Bool × List ConfigRow :=
  match runInserts tbl config with
  | (true, t1) =>
    (match insertAppConfig t1 setupCompletedRow with
     | some t2 => (true, t2)
     | none => (false, t1))
  | (false, t1) => (false, t1)

/-- The five keys `getR2Credentials` queries. -/
def r2CredKeys : List String :=
  ["CLOUDFLARE_ACCOUNT_ID", "CLOUDFLARE_ACCESS_KEY_ID", "CLOUDFLARE_SECRET_ACCESS_KEY",
   "CLOUDFLARE_API_TOKEN", "CLOUDFLARE_R2_ENDPOINT"]

/-- The `findMany` of `getR2Credentials`: the credential rows in table
order. -/
def getR2CredRows (tbl : List ConfigRow) : List ConfigRow :=
  tbl.filter (fun r => r2CredKeys.contains r.key)

/-- The value the reduce-built credentials object holds for `k`: each row
overwrites `acc[row.key]`, so the last row with that key wins. -/
def credLookup (tbl : List ConfigRow) (k : String) : Option String :=
  (((getR2CredRows tbl).filter (fun r => r.key == k)).getLast?).map (fun r => r.value)

/-- A concrete posted configuration used by witnesses. -/
def sampleConfig : List (String × String) :=
  [("CLOUDFLARE_ACCOUNT_ID", "acc"), ("CLOUDFLARE_ACCESS_KEY_ID", "ak"),
   ("CLOUDFLARE_SECRET_ACCESS_KEY", "sk"), ("CLOUDFLARE_API_TOKEN", "tok"),
   ("CLOUDFLARE_R2_ENDPOINT", "ep")]

/-! ## Concrete data used by witnesses -/

def sampleObjects : List BucketObject :=
  [⟨"a/photo.jpg", 10, "", ""⟩, ⟨"doc.pdf", 5, "", ""⟩,
   ⟨"pic.png", 3, "", ""⟩, ⟨"song.mp3", 8, "", ""⟩]

def samplePage : UpstreamPage :=
  { Contents := [{ Key := some "a/photo.jpg", Size := some 4 }, { Key := some "b.txt" }],
    KeyCount := some 2 }

def sampleFilters : ObjectsRequestFilters := { filename := "pho" }

def sampleModalState : UploadModalState :=
  { files := [⟨"a", "a", 1, 50, UStatus.uploading, none⟩,
              ⟨"b", "b", 1, 20, UStatus.uploading, none⟩],
    active := ["a", "b"] }

def sampleRetryFiles : List UploadingFile :=
  [⟨"a", "a", 1, 100, UStatus.success, none⟩,
   ⟨"b", "b", 1, 40, UStatus.error, some "Network error occurred"⟩,
   ⟨"c", "c", 1, 0, UStatus.error, some "Upload cancelled"⟩]

def sampleFile (i : String) : UploadingFile := ⟨i, i, 1, 0, UStatus.pending, none⟩

def sampleFiles7 : List UploadingFile :=
  [sampleFile "f1", sampleFile "f2", sampleFile "f3", sampleFile "f4",
   sampleFile "f5", sampleFile "f6", sampleFile "f7"]

def sampleTrace7 : List UploadEv :=
  [UploadEv.start "f1", UploadEv.start "f2", UploadEv.start "f3",
   UploadEv.settle "f1" true "", UploadEv.settle "f2" true "", UploadEv.settle "f3" true "",
   UploadEv.start "f4", UploadEv.start "f5", UploadEv.start "f6",
   UploadEv.settle "f4" true "", UploadEv.settle "f5" true "", UploadEv.settle "f6" true "",
   UploadEv.start "f7", UploadEv.settle "f7" true ""]

/-! ## Shared helper lemmas -/

lemma takeWhile_append_of {α : Type} (p : α → Bool) (l1 l2 : List α)
    (h1 : ∀ a ∈ l1, p a = true)
    (h2 : l2 = [] ∨ ∃ c cs, l2 = c :: cs ∧ p c = false) :
    (l1 ++ l2).takeWhile p = l1 := by
  induction l1 with
  | nil =>
    rcases h2 with rfl | ⟨c, cs, rfl, hc⟩
    · rfl
    · exact List.takeWhile_cons_of_neg (by simp [hc])
  | cons a l ih =>
    have ha : p a = true := h1 a (List.mem_cons_self a l)
    simp only [List.cons_append, List.takeWhile_cons_of_pos ha]
    rw [ih (fun x hx => h1 x (List.mem_cons_of_mem a hx))]

/-! ## C1: classification of tokens without a recognized operator -/

/-- C1 (amended): in `parseSearchQuery`, a token that starts with none of
the recognized operators `type:`, `size>`, `size<`, `after:`, `before:` and
contains no colon sets both the prefix and the filename field to the
quote-stripped token; a token with a colon but no recognized operator is
ignored. -/
theorem processSearchPart_plain_token (params : SearchParams) (part : List Char)
    (h1 : listStartsWith "type:" part = false)
    (h2 : listStartsWith "size>" part = false)
    (h3 : listStartsWith "size<" part = false)
    (h4 : listStartsWith "after:" part = false)
    (h5 : listStartsWith "before:" part = false) :
    (part.contains ':' = false →
      processSearchPart params part =
        { params with pref := some (String.mk (stripQuotePair part)),
                      filename := some (String.mk (stripQuotePair part)) }) ∧
    (part.contains ':' = true → processSearchPart params part = params) := by
  constructor <;> intro hc
  · have hcm : ':' ∉ part := by simpa using hc
    simp [processSearchPart, h1, h2, h3, h4, h5, hcm]
  · have hcm : ':' ∈ part := by simpa using hc
    simp [processSearchPart, h1, h2, h3, h4, h5, hcm]

/-- C1 witness: a plain token sets both fields. -/
theorem processSearchPart_plain_token_witness :
    processSearchPart {} ("report.pdf").data =
      { ({} : SearchParams) with
        pref := some (String.mk (stripQuotePair ("report.pdf").data)),
        filename := some (String.mk (stripQuotePair ("report.pdf").data)) } :=
  (processSearchPart_plain_token {} ("report.pdf").data (by decide) (by decide) (by decide)
    (by decide) (by decide)).1 (by decide)

/-- C1 counterexample: the token `foo:bar` starts with no recognized
operator, yet `parseSearchQuery` sets neither the prefix nor the filename
field to it (the token is dropped because it contains a colon). -/
theorem parseSearchQuery_colon_token_ignored :
    tokenizeQuery "foo:bar" = [("foo:bar").data] ∧
    listStartsWith "type:" ("foo:bar").data = false ∧
    listStartsWith "size>" ("foo:bar").data = false ∧
    listStartsWith "size<" ("foo:bar").data = false ∧
    listStartsWith "after:" ("foo:bar").data = false ∧
    listStartsWith "before:" ("foo:bar").data = false ∧
    (parseSearchQuery "foo:bar").pref ≠ some "foo:bar" ∧
    (parseSearchQuery "foo:bar").filename ≠ some "foo:bar" ∧
    (parseSearchQuery "foo:bar").pref = none ∧
    (parseSearchQuery "foo:bar").filename = none := by decide

/-! ## C2: the example query, quoted tokens, dropped size units -/

/-- C2: parseSearchQuery on the query `type:image size>1mb \"my file.png\"` yields
exactly the record with type `image`, minSize `1mb` and prefix and filename
`my file.png`; the quoted substring with a space stays one token; and a size
token that `parseSizeString` rejects contributes no size parameter to the
objects request (it is dropped silently, for the min and the max bound
alike). -/
theorem parseSearchQuery_example_spec :
    parseSearchQuery "type:image size>1mb \"my file.png\"" =
      { pref := some "my file.png", filename := some "my file.png",
        type := some "image", minSize := some "1mb" } ∧
    tokenizeQuery "type:image size>1mb \"my file.png\"" =
      [("type:image").data, ("size>1mb").data, ("\"my file.png\"").data] ∧
    (∀ ps : SearchParams, ∀ s : String, ps.minSize = some s → parseSizeString s = none →
      (buildObjectQueryParams ps).minSize = none) ∧
    (∀ ps : SearchParams, ∀ s : String, ps.maxSize = some s → parseSizeString s = none →
      (buildObjectQueryParams ps).maxSize = none) := by
  refine ⟨by decide, by decide, ?_, ?_⟩
  · intro ps s hmin hparse
    simp only [buildObjectQueryParams, hmin, jsTruthyStr, Option.getD_some]
    cases h : s.isEmpty <;> simp [h, hparse]
  · intro ps s hmax hparse
    simp only [buildObjectQueryParams, hmax, jsTruthyStr, Option.getD_some]
    cases h : s.isEmpty <;> simp [h, hparse]

/-- C2 witness: a size token with an unrecognized unit suffix sets no
minSize parameter. -/
theorem parseSearchQuery_example_spec_witness :
    (buildObjectQueryParams { minSize := some "10xy" }).minSize = none :=
  parseSearchQuery_example_spec.2.2.1 { minSize := some "10xy" } "10xy" rfl (by decide)

/-! ## C9: parseSizeString -/

lemma floorLog2Aux_ge : ∀ (fuel n k : Nat), 2 ^ k ≤ n → n ≤ fuel →
    k ≤ floorLog2Aux fuel n := by
  intro fuel
  induction fuel with
  | zero =>
    intro n k hk hn
    have : 0 < 2 ^ k := Nat.pos_pow_of_pos k (by omega)
    omega
  | succ fuel ih =>
    intro n k hk hn
    cases k with
    | zero => exact Nat.zero_le _
    | succ j =>
      have h2 : 2 ≤ n := le_trans (by calc 2 = 2 ^ 1 := by norm_num
                                         _ ≤ 2 ^ (j + 1) := Nat.pow_le_pow_right (by omega) (by omega)) hk
      have hbody : floorLog2Aux (fuel + 1) n = floorLog2Aux fuel (n / 2) + 1 := by
        simp [floorLog2Aux, Nat.not_lt.mpr h2]
      rw [hbody]
      have hdiv : 2 ^ j ≤ n / 2 := by
        rw [Nat.le_div_iff_mul_le (by omega)]
        calc 2 ^ j * 2 = 2 ^ (j + 1) := (Nat.pow_succ 2 j).symm
          _ ≤ n := hk
      have hfuel : n / 2 ≤ fuel := by
        have : n / 2 < n := Nat.div_lt_self (by omega) (by omega)
        omega
      have := ih (n / 2) j hdiv hfuel
      omega

lemma floorLog2Aux_pow_le : ∀ (fuel n : Nat), 1 ≤ n → n ≤ fuel →
    2 ^ floorLog2Aux fuel n ≤ n := by
  intro fuel
  induction fuel with
  | zero => intro n h1 h0; omega
  | succ fuel ih =>
    intro n h1 hn
    by_cases h2 : n < 2
    · simp [floorLog2Aux, h2]
      omega
    · have hbody : floorLog2Aux (fuel + 1) n = floorLog2Aux fuel (n / 2) + 1 := by
        simp [floorLog2Aux, h2]
      rw [hbody, Nat.pow_succ]
      have hdivpos : 1 ≤ n / 2 := by
        rw [Nat.le_div_iff_mul_le (by omega)]; omega
      have hfuel : n / 2 ≤ fuel := by
        have : n / 2 < n := Nat.div_lt_self (by omega) (by omega)
        omega
      calc 2 ^ floorLog2Aux fuel (n / 2) * 2 ≤ n / 2 * 2 :=
            Nat.mul_le_mul_right 2 (ih (n / 2) hdivpos hfuel)
        _ ≤ n := Nat.div_mul_le_self n 2

lemma roundToDouble_small {n : Nat} (h : n < 2 ^ 53) : roundToDouble n = some n := by
  unfold roundToDouble
  split
  next => rfl
  next hneg => exact absurd h hneg

lemma roundToDouble_eq_small {c p : Nat} (h : roundToDouble c = some p) (hp : p < 2 ^ 53) :
    c = p := by
  by_cases hc : c < 2 ^ 53
  · rw [roundToDouble_small hc] at h
    exact Option.some.inj h
  · exfalso
    push_neg at hc
    have hL : 53 ≤ floorLog2 c := floorLog2Aux_ge c c 53 hc (le_refl c)
    have hpow : 2 ^ floorLog2 c ≤ c := by
      have h1 : (1 : Nat) ≤ c := le_trans (by norm_num) hc
      exact floorLog2Aux_pow_le c c h1 (le_refl c)
    have hq : 2 ^ 52 ≤ c / 2 ^ (floorLog2 c - 52) := by
      have h1 : 2 ^ floorLog2 c / 2 ^ (floorLog2 c - 52) ≤ c / 2 ^ (floorLog2 c - 52) :=
        Nat.div_le_div_right hpow
      rwa [Nat.pow_div (by omega) (by omega), show floorLog2 c - (floorLog2 c - 52) = 52 by omega]
        at h1
    simp only [roundToDouble, if_neg (Nat.not_lt.mpr hc)] at h
    set e := floorLog2 c - 52 with he
    have he1 : 1 ≤ e := by omega
    set q := c / 2 ^ e with hqdef
    have hbig : 2 ^ 53 ≤ q * 2 ^ e := by
      calc 2 ^ 53 = 2 ^ 52 * 2 ^ 1 := by norm_num
        _ ≤ 2 ^ 52 * 2 ^ e := Nat.mul_le_mul_left _ (Nat.pow_le_pow_right (by omega) he1)
        _ ≤ q * 2 ^ e := Nat.mul_le_mul_right _ hq
    split at h
    · split at h
      · have hpv := Option.some.inj h
        have hstep : q * 2 ^ e ≤ (q + 1) * 2 ^ e := Nat.mul_le_mul_right _ (Nat.le_succ q)
        omega
      · exact Option.noConfusion h
    · split at h
      · have hpv := Option.some.inj h
        omega
      · exact Option.noConfusion h

lemma pickCandidate_sound {p pw c : Nat} {cs : List Nat}
    (h : pickCandidate p pw cs = some c) : roundToDouble c = some p := by
  unfold pickCandidate at h
  cases hf : cs.filter (fun x => roundToDouble x == some p) with
  | nil => rw [hf] at h; exact Option.noConfusion h
  | cons c1 tail =>
    have h1 : roundToDouble c1 = some p := by
      have hm : c1 ∈ cs.filter (fun x => roundToDouble x == some p) := by
        rw [hf]; exact List.mem_cons_self _ _
      exact eq_of_beq (List.mem_filter.mp hm).2
    cases tail with
    | nil =>
      rw [hf] at h
      have : c1 = c := Option.some.inj h
      rwa [← this]
    | cons c2 rest =>
      have h2 : roundToDouble c2 = some p := by
        have hm : c2 ∈ cs.filter (fun x => roundToDouble x == some p) := by
          rw [hf]; exact List.mem_cons_of_mem _ (List.mem_cons_self _ _)
        exact eq_of_beq (List.mem_filter.mp hm).2
      rw [hf] at h
      have hcv := Option.some.inj h
      split_ifs at hcv <;> rw [← hcv] <;> assumption

lemma searchK_small : ∀ (fuel p k : Nat), p < 2 ^ 53 → searchK fuel p k = p := by
  intro fuel
  induction fuel with
  | zero => intro p k _; rfl
  | succ fuel ih =>
    intro p k hp
    rw [searchK]
    cases hpk : pickCandidate p (if digitsCount p ≤ k then 1 else 10 ^ (digitsCount p - k))
        (tsCandidates p k) with
    | some c => exact roundToDouble_eq_small (pickCandidate_sound hpk) hp
    | none => exact ih p (k + 1) hp

lemma jsDoubleToString_small {p : Nat} (hp : p < 2 ^ 53) :
    jsDoubleToString (some p) = Nat.repr p := by
  have h1 : searchK (digitsCount p + 1) p 1 = p := searchK_small _ p 1 hp
  have h2 : p < 10 ^ 21 := lt_trans hp (by norm_num)
  simp only [jsDoubleToString, h1, if_pos h2]

lemma unitMult_pos {u : List Char} {m : Nat} (h : unitMult u = some m) : 0 < m := by
  simp only [unitMult] at h
  split_ifs at h
  all_goals first
  | exact Option.noConfusion h
  | (injection h with h; omega)

set_option maxRecDepth 10000 in
/-- C9 (amended): `parseSizeString` maps `10mb` to `10485760` and `abc` to
undefined; an input consisting of a nonempty digit run followed by a unit
the multiplier table accepts (the empty unit defaults to `b`) parses, when
the exact digit value times the power-of-1024 multiplier stays below 2 to
the 53 so that parseInt, the float multiply and the decimal rendering are
all exact, to that product rendered as a string; and every successful
parse arises from such a digits-plus-accepted-unit decomposition. Beyond
2 to the 53 the float pipeline rounds; see the counterexample. -/
theorem parseSizeString_spec :
    parseSizeString "10mb" = some "10485760" ∧
    parseSizeString "abc" = none ∧
    (∀ ds u : List Char, ds ≠ [] → (∀ c ∈ ds, c.isDigit = true) →
      (∀ c ∈ u, c.isDigit = false) → ∀ m : Nat, unitMult u = some m →
      digitsToNat ds * m < 2 ^ 53 →
      parseSizeChars (ds ++ u) = some (Nat.repr (digitsToNat ds * m))) ∧
    (∀ l : List Char, ∀ r : String, parseSizeChars l = some r →
      ∃ ds u m, l = ds ++ u ∧ ds ≠ [] ∧ (∀ c ∈ ds, c.isDigit = true) ∧
        unitMult u = some m) := by
  refine ⟨by decide, by decide, ?_, ?_⟩
  · intro ds u hne hds hu m hm hlt
    have htw : (ds ++ u).takeWhile Char.isDigit = ds := by
      refine takeWhile_append_of _ _ _ hds ?_
      cases u with
      | nil => exact Or.inl rfl
      | cons c cs => exact Or.inr ⟨c, cs, rfl, hu c (List.mem_cons_self c cs)⟩
    have hpos : 0 < m := unitMult_pos hm
    have hle : digitsToNat ds ≤ digitsToNat ds * m := by
      calc digitsToNat ds = digitsToNat ds * 1 := (Nat.mul_one _).symm
        _ ≤ digitsToNat ds * m := Nat.mul_le_mul le_rfl hpos
    have hd53 : digitsToNat ds < 2 ^ 53 := lt_of_le_of_lt hle hlt
    have hpi : jsParseInt ds = some (digitsToNat ds) := by
      unfold jsParseInt
      exact roundToDouble_small hd53
    have hov : digitsToNat ds * m < 16 ^ 256 := lt_trans hlt (by norm_num)
    have hmul : jsMulPow2 (some (digitsToNat ds)) m = some (digitsToNat ds * m) := by
      simp only [jsMulPow2, if_pos hov]
    simp only [parseSizeChars, htw, List.drop_left, hm]
    simp only [if_neg hne]
    rw [hpi, hmul, jsDoubleToString_small hlt]
  · intro l r h
    have hsplit : l = l.takeWhile Char.isDigit ++ l.dropWhile Char.isDigit :=
      (List.takeWhile_append_dropWhile Char.isDigit l).symm
    have hrest : l.drop (l.takeWhile Char.isDigit).length = l.dropWhile Char.isDigit := by
      nth_rewrite 2 [hsplit]
      exact List.drop_left _ _
    simp only [parseSizeChars, hrest] at h
    by_cases hne : l.takeWhile Char.isDigit = []
    · simp [hne] at h
    · simp only [if_neg hne] at h
      cases hu : unitMult (l.dropWhile Char.isDigit) with
      | none => rw [hu] at h; simp at h
      | some m =>
        exact ⟨l.takeWhile Char.isDigit, l.dropWhile Char.isDigit, m, hsplit, hne,
          fun c hc => List.mem_takeWhile_imp hc, hu⟩

set_option maxRecDepth 10000 in
/-- C9 counterexample: on an input of twenty nines the program does not
return the exact digit value times the multiplier. The input is a nonempty
digit run with the empty unit accepted at multiplier 1, yet parseInt
rounds it to the nearest double, 10 to the 20, and the rendered result is
100000000000000000000. -/
theorem parseSizeString_float_rounding_counterexample :
    parseSizeString "99999999999999999999" = some "100000000000000000000" ∧
    parseSizeString "99999999999999999999" ≠
      some (Nat.repr (digitsToNat ("99999999999999999999").data * 1)) ∧
    ("99999999999999999999").data ≠ [] ∧
    (∀ c ∈ ("99999999999999999999").data, c.isDigit = true) ∧
    unitMult [] = some 1 := by
  refine ⟨by decide, by decide, by decide, by decide, by decide⟩

set_option maxRecDepth 10000 in
/-- C9 witness: the characterization applied at the concrete decomposition
`10` ++ `mb`, whose product is far below 2 to the 53. -/
theorem parseSizeString_spec_witness :
    parseSizeChars (("10").data ++ ("mb").data) =
      some (Nat.repr (digitsToNat ("10").data * 1048576)) :=
  parseSizeString_spec.2.2.1 ("10").data ("mb").data (by decide) (by decide) (by decide)
    1048576 (by decide) (by decide)


/-! ## C3: type-category filtering -/

/-- C3: for each of the five client-side type categories, filtering an
object list with only that category active returns exactly the objects
whose key extension (lowercased segment after the last dot) lies in the
extension set of that category. -/
theorem filteredObjects_type_filter_exact (cat : String)
    (hcat : cat ∈ ["images", "documents", "code", "media", "archives"])
    (toNum : String → Option ℚ) (parseDate : String → Option Int)
    (objs : List BucketObject) :
    filteredObjects cat "" "" "" "" toNum parseDate objs =
      objs.filter (fun o => ((typeMatches cat).getD []).contains (extOf o.key)) ∧
    ∀ o : BucketObject,
      (o ∈ filteredObjects cat "" "" "" "" toNum parseDate objs ↔
        o ∈ objs ∧ extOf o.key ∈ (typeMatches cat).getD []) := by
  have key : ∀ o : BucketObject, clientPass cat "" "" "" "" toNum parseDate o =
      ((typeMatches cat).getD []).contains (extOf o.key) := by
    fin_cases hcat <;> intro o <;>
      simp [clientPass, typeMatches, show ("" : String).isEmpty = true from rfl,
        show ("images" : String).isEmpty = false from rfl,
        show ("documents" : String).isEmpty = false from rfl,
        show ("code" : String).isEmpty = false from rfl,
        show ("media" : String).isEmpty = false from rfl,
        show ("archives" : String).isEmpty = false from rfl]
  constructor
  · exact List.filter_congr (fun o _ => key o)
  · intro o
    simp [filteredObjects, List.mem_filter, key o]

/-- C3 witness: the `images` category keeps a jpg object exactly because
its extension is in the image set. -/
theorem filteredObjects_type_filter_exact_witness :
    ((⟨"a/photo.jpg", 10, "", ""⟩ : BucketObject) ∈
        filteredObjects "images" "" "" "" "" (fun _ => none) (fun _ => none) sampleObjects ↔
      (⟨"a/photo.jpg", 10, "", ""⟩ : BucketObject) ∈ sampleObjects ∧
        extOf "a/photo.jpg" ∈ (typeMatches "images").getD []) :=
  (filteredObjects_type_filter_exact "images" (by decide) (fun _ => none) (fun _ => none)
    sampleObjects).2 ⟨"a/photo.jpg", 10, "", ""⟩

/-! ## C10: totalObjects versus filtered page length -/

/-- C10: a successful GET objects response reports the upstream KeyCount
(0 when absent) as `totalObjects`, not the number of returned objects;
whenever the post-filters drop objects from a page whose KeyCount equals its
length, `totalObjects` exceeds the length of the returned array. -/
theorem getObjects_totalObjects_keyCount (f : ObjectsRequestFilters) (page : UpstreamPage) :
    (getObjectsModel f page).totalObjects = (page.KeyCount).getD 0 ∧
    (page.KeyCount = some page.Contents.length →
      (getObjectsModel f page).objects.length < page.Contents.length →
      (getObjectsModel f page).objects.length < (getObjectsModel f page).totalObjects) := by
  constructor
  · rfl
  · intro hk hlen
    have h1 : (getObjectsModel f page).totalObjects = (page.KeyCount).getD 0 := rfl
    rw [h1, hk]
    simpa using hlen

/-- C10 witness: a filename filter that drops one of two objects leaves
`totalObjects` strictly above the returned length. -/
theorem getObjects_totalObjects_keyCount_witness :
    (getObjectsModel sampleFilters samplePage).objects.length <
      (getObjectsModel sampleFilters samplePage).totalObjects :=
  (getObjects_totalObjects_keyCount sampleFilters samplePage).2 (by decide) (by decide)

/-! ## C4: re-running setup against the UNIQUE key column -/

lemma insertAppConfig_mem {tbl t2 : List ConfigRow} {r s : ConfigRow}
    (h : insertAppConfig tbl r = some t2) (hs : s ∈ tbl) : s ∈ t2 := by
  unfold insertAppConfig at h
  split at h
  · exact absurd h (by simp)
  · simp only [Option.some.injEq] at h
    subst h
    exact List.mem_append_left _ hs

lemma insertAppConfig_self_mem {tbl t2 : List ConfigRow} {r : ConfigRow}
    (h : insertAppConfig tbl r = some t2) : r ∈ t2 := by
  unfold insertAppConfig at h
  split at h
  · exact absurd h (by simp)
  · simp only [Option.some.injEq] at h
    subst h
    exact List.mem_append_right _ (List.mem_singleton.mpr rfl)

lemma runInserts_mem (cfg : List (String × String)) :
    ∀ (tbl : List ConfigRow) {s : ConfigRow}, s ∈ tbl → s ∈ (runInserts tbl cfg).2 := by
  induction cfg with
  | nil => intro tbl s hs; exact hs
  | cons kv rest ih =>
    intro tbl s hs
    simp only [runInserts]
    cases hins : insertAppConfig tbl (configRowOf kv) with
    | some t2 => exact ih t2 (insertAppConfig_mem hins hs)
    | none => exact hs

lemma runInserts_cons_true {tbl : List ConfigRow} {k v : String}
    {rest : List (String × String)}
    (h : (runInserts tbl ((k, v) :: rest)).1 = true) :
    ∃ r ∈ (runInserts tbl ((k, v) :: rest)).2, r.key = k := by
  simp only [runInserts] at h ⊢
  cases hins : insertAppConfig tbl (configRowOf (k, v)) with
  | none => rw [hins] at h; simp at h
  | some t2 =>
    exact ⟨configRowOf (k, v), runInserts_mem rest t2 (insertAppConfig_self_mem hins), rfl⟩

lemma setupR2Persist_key_present {tbl : List ConfigRow} {k v : String}
    {rest : List (String × String)}
    (h : (setupR2Persist tbl ((k, v) :: rest)).1 = true) :
    ∃ r ∈ (setupR2Persist tbl ((k, v) :: rest)).2, r.key = k := by
  unfold setupR2Persist at h ⊢
  cases hrun : runInserts tbl ((k, v) :: rest) with
  | mk b t1 =>
    rw [hrun] at h
    cases b with
    | false => simp at h
    | true =>
      obtain ⟨r, hr, hk⟩ := runInserts_cons_true
        (show (runInserts tbl ((k, v) :: rest)).1 = true by rw [hrun])
      rw [hrun] at hr
      dsimp only at h hr ⊢
      cases hins : insertAppConfig t1 setupCompletedRow with
      | some t2 => exact ⟨r, insertAppConfig_mem hins hr, hk⟩
      | none => simp [hins] at h

/-- C4 (amended): after a successful run of the setup credential-persistence
step, re-running it with the same configuration does not insert duplicate
rows: the first insert hits the UNIQUE("key") constraint, the request fails,
the app_config table is unchanged, and every credential read yields the same
value as before the rerun. -/
theorem setup_rerun_unique_violation (tbl : List ConfigRow) (k v : String)
    (rest : List (String × String))
    (h : (setupR2Persist tbl ((k, v) :: rest)).1 = true) :
    setupR2Persist (setupR2Persist tbl ((k, v) :: rest)).2 ((k, v) :: rest) =
      (false, (setupR2Persist tbl ((k, v) :: rest)).2) ∧
    ∀ key : String,
      credLookup (setupR2Persist (setupR2Persist tbl ((k, v) :: rest)).2 ((k, v) :: rest)).2 key =
        credLookup (setupR2Persist tbl ((k, v) :: rest)).2 key := by
  obtain ⟨r, hr, hk⟩ := setupR2Persist_key_present h
  set T := (setupR2Persist tbl ((k, v) :: rest)).2 with hT
  have hany : T.any (fun row => row.key == k) = true :=
    List.any_eq_true.mpr ⟨r, hr, by simp [hk]⟩
  have hfail : insertAppConfig T (configRowOf (k, v)) = none := by
    unfold insertAppConfig
    simp only [configRowOf]
    rw [if_pos hany]
  have hrun2 : runInserts T ((k, v) :: rest) = (false, T) := by
    simp only [runInserts]
    rw [hfail]
  have hmain : setupR2Persist T ((k, v) :: rest) = (false, T) := by
    simp only [setupR2Persist]
    rw [hrun2]
  exact ⟨hmain, fun key => by rw [hmain]⟩

/-- C4 witness: the concrete sample configuration; the second run fails and
leaves the table of the first run unchanged. -/
theorem setup_rerun_unique_violation_witness :
    setupR2Persist (setupR2Persist [] sampleConfig).2 sampleConfig =
      (false, (setupR2Persist [] sampleConfig).2) :=
  (setup_rerun_unique_violation [] "CLOUDFLARE_ACCOUNT_ID" "acc"
    [("CLOUDFLARE_ACCESS_KEY_ID", "ak"), ("CLOUDFLARE_SECRET_ACCESS_KEY", "sk"),
     ("CLOUDFLARE_API_TOKEN", "tok"), ("CLOUDFLARE_R2_ENDPOINT", "ep")] (by decide)).1

/-- C4 counterexample: re-running setup on the sample configuration does not
produce a second row for `CLOUDFLARE_ACCOUNT_ID` (the claim predicts two);
the rerun reports failure and reads still return the originally stored
value. -/
theorem setup_rerun_no_duplicate_rows :
    ((setupR2Persist (setupR2Persist [] sampleConfig).2 sampleConfig).2).countP
        (fun r => r.key == "CLOUDFLARE_ACCOUNT_ID") = 1 ∧
    (setupR2Persist (setupR2Persist [] sampleConfig).2 sampleConfig).1 = false ∧
    credLookup (setupR2Persist (setupR2Persist [] sampleConfig).2 sampleConfig).2
      "CLOUDFLARE_ACCOUNT_ID" = some "acc" := by decide


/-! ## C7: cancelUpload only touches the cancelled file -/

/-- C7: for a file id whose upload is in flight, `cancelUpload id` removes
exactly that id from the in-flight set (the abort and delete), sets every
entry with that id to the error status with reason `Upload cancelled`
(progress untouched), and leaves every entry with a different id exactly as
it was. -/
theorem cancelUpload_frame (st : UploadModalState) (id : String) (hin : id ∈ st.active) :
    (id ∉ (cancelUpload id st).active) ∧
    (∀ j ∈ st.active, j ≠ id → j ∈ (cancelUpload id st).active) ∧
    (cancelUpload id st).files.length = st.files.length ∧
    (∀ i : Nat, ∀ h1 : i < st.files.length, ∀ h2 : i < (cancelUpload id st).files.length,
      ((st.files[i]).id ≠ id → (cancelUpload id st).files[i] = st.files[i]) ∧
      ((st.files[i]).id = id →
        (cancelUpload id st).files[i] =
          { st.files[i] with status := UStatus.error, error := some "Upload cancelled" })) := by
  refine ⟨?_, ?_, ?_, ?_⟩
  · simp [cancelUpload]
  · intro j hj hne
    simp [cancelUpload, List.mem_filter, hj, hne]
  · simp [cancelUpload]
  · intro i h1 h2
    constructor <;> intro hid
    · simp [cancelUpload, List.getElem_map, hid]
    · simp [cancelUpload, List.getElem_map, hid]

/-- C7 witness: cancelling `a` in a two-upload state drops only `a` from
the in-flight set, errors only the `a` entry and leaves `b` unchanged. -/
theorem cancelUpload_frame_witness :
    ("a" ∉ (cancelUpload "a" sampleModalState).active) ∧
    (cancelUpload "a" sampleModalState).files.get ⟨1, by decide⟩ =
      sampleModalState.files.get ⟨1, by decide⟩ ∧
    (cancelUpload "a" sampleModalState).files.get ⟨0, by decide⟩ =
      { sampleModalState.files.get ⟨0, by decide⟩ with
        status := UStatus.error, error := some "Upload cancelled" } :=
  ⟨(cancelUpload_frame sampleModalState "a" (by decide)).1,
   ((cancelUpload_frame sampleModalState "a" (by decide)).2.2.2 1 (by decide) (by decide)).1
     (by decide),
   ((cancelUpload_frame sampleModalState "a" (by decide)).2.2.2 0 (by decide) (by decide)).2
     (by decide)⟩

/-! ## C8: retry re-queues exactly the failed subset -/

/-- C8: the retry action selects exactly the entries whose status is error
for re-upload (captured before the reset), resets exactly those to pending
with zero progress and no error message, and leaves every entry of any
other status (in particular every success) unchanged. -/
theorem retryFailedUploads_frame (files : List UploadingFile) :
    (∀ f : UploadingFile,
      (f ∈ (retryFailedUploads files).2 ↔ f ∈ files ∧ f.status = UStatus.error)) ∧
    (retryFailedUploads files).1.length = files.length ∧
    (∀ i : Nat, ∀ h1 : i < files.length, ∀ h2 : i < (retryFailedUploads files).1.length,
      ((files[i]).status = UStatus.success → (retryFailedUploads files).1[i] = files[i]) ∧
      ((files[i]).status = UStatus.pending → (retryFailedUploads files).1[i] = files[i]) ∧
      ((files[i]).status = UStatus.uploading → (retryFailedUploads files).1[i] = files[i]) ∧
      ((files[i]).status = UStatus.error →
        (retryFailedUploads files).1[i] =
          { files[i] with status := UStatus.pending, progress := 0, error := none })) := by
  refine ⟨?_, ?_, ?_⟩
  · intro f
    simp [retryFailedUploads, List.mem_filter]
  · simp [retryFailedUploads]
  · intro i h1 h2
    refine ⟨?_, ?_, ?_, ?_⟩ <;> intro hst <;>
      simp [retryFailedUploads, List.getElem_map, hst]

/-- C8 witness: on a batch with one success and two failures, the selection
contains the failed entry and the success entry is untouched. -/
theorem retryFailedUploads_frame_witness :
    ((⟨"b", "b", 1, 40, UStatus.error, some "Network error occurred"⟩ : UploadingFile) ∈
        (retryFailedUploads sampleRetryFiles).2 ↔
      ((⟨"b", "b", 1, 40, UStatus.error, some "Network error occurred"⟩ : UploadingFile) ∈
          sampleRetryFiles ∧
        (⟨"b", "b", 1, 40, UStatus.error,
            some "Network error occurred"⟩ : UploadingFile).status = UStatus.error)) ∧
    (retryFailedUploads sampleRetryFiles).1.get ⟨0, by decide⟩ =
      sampleRetryFiles.get ⟨0, by decide⟩ :=
  ⟨(retryFailedUploads_frame sampleRetryFiles).1 _,
   ((retryFailedUploads_frame sampleRetryFiles).2.2 0 (by decide) (by decide)).1 (by decide)⟩

/-! ## C6: chunked uploads never exceed the concurrency cap -/

lemma applyEv1_id (e : UploadEv) (f : UploadingFile) : (applyEv1 e f).id = f.id := by
  cases e <;> simp only [applyEv1] <;> (repeat' split) <;> rfl

lemma applyEvF_nil (f : UploadingFile) : applyEvF [] f = f := rfl

lemma applyEvF_cons (e : UploadEv) (t : List UploadEv) (f : UploadingFile) :
    applyEvF (e :: t) f = applyEvF t (applyEv1 e f) := rfl

lemma applyEvF_id (t : List UploadEv) (f : UploadingFile) : (applyEvF t f).id = f.id := by
  induction t generalizing f with
  | nil => rfl
  | cons e t ih => rw [applyEvF_cons, ih, applyEv1_id]

lemma applyTrace_nil (st : List UploadingFile) : applyTrace [] st = st := rfl

lemma applyTrace_cons (e : UploadEv) (t : List UploadEv) (st : List UploadingFile) :
    applyTrace (e :: t) st = applyTrace t (st.map (applyEv1 e)) := rfl

lemma applyTrace_eq_map (t : List UploadEv) (st : List UploadingFile) :
    applyTrace t st = st.map (applyEvF t) := by
  induction t generalizing st with
  | nil =>
    rw [applyTrace_nil, show applyEvF ([] : List UploadEv) = id from funext (fun f => rfl),
      List.map_id]
  | cons e t ih =>
    rw [applyTrace_cons, ih, List.map_map]
    exact List.map_congr_left (fun a _ => rfl)

lemma applyTrace_append (t1 t2 : List UploadEv) (st : List UploadingFile) :
    applyTrace (t1 ++ t2) st = applyTrace t2 (applyTrace t1 st) := by
  simp [applyTrace, List.foldl_append]

lemma applyTrace_map_id (t : List UploadEv) (st : List UploadingFile) :
    (applyTrace t st).map (fun f => f.id) = st.map (fun f => f.id) := by
  rw [applyTrace_eq_map, List.map_map]
  exact List.map_congr_left (fun a _ => applyEvF_id t a)

lemma prefix_cons_cases {α : Type} {p t : List α} {e : α} (h : p <+: (e :: t)) :
    p = [] ∨ ∃ p2, p = e :: p2 ∧ p2 <+: t := by
  rcases h with ⟨r, hr⟩
  cases p with
  | nil => exact Or.inl rfl
  | cons a p2 =>
    injection hr with h1 h2
    exact Or.inr ⟨p2, by rw [h1], ⟨r, h2⟩⟩

lemma prefix_append_cases {α : Type} {p t1 t2 : List α} (h : p <+: (t1 ++ t2)) :
    p <+: t1 ∨ ∃ q, p = t1 ++ q ∧ q <+: t2 := by
  induction t1 generalizing p with
  | nil => exact Or.inr ⟨p, (List.nil_append p).symm, h⟩
  | cons a t1 ih =>
    rcases prefix_cons_cases h with rfl | ⟨p2, rfl, hp2⟩
    · exact Or.inl List.nil_prefix
    · rcases ih hp2 with h1 | ⟨q, rfl, hq⟩
      · rcases h1 with ⟨r, hr⟩
        exact Or.inl ⟨r, by rw [List.cons_append, hr]⟩
      · exact Or.inr ⟨q, by rw [List.cons_append], hq⟩

lemma chunkExec_entry {ns fl : List String} {t : List UploadEv} (h : ChunkExec ns fl t) :
    ∀ f : UploadingFile, (f.status = UStatus.uploading → f.id ∈ fl) →
      ((applyEvF t f).status ≠ UStatus.uploading) ∧
      (∀ p : List UploadEv, p <+: t → (applyEvF p f).status = UStatus.uploading →
        f.id ∈ fl ∨ f.id ∈ ns) := by
  induction h with
  | done =>
    intro f hf
    constructor
    · intro hup
      exact absurd (hf hup) (List.not_mem_nil _)
    · intro p hp hup
      have hpe : p = [] := List.prefix_nil.mp hp
      subst hpe
      exact Or.inl (hf hup)
  | @start ns fl t i hi hrec ih =>
    intro f hf
    have hid2 : (applyEv1 (UploadEv.start i) f).id = f.id := applyEv1_id _ _
    have hf2 : (applyEv1 (UploadEv.start i) f).status = UStatus.uploading →
        (applyEv1 (UploadEv.start i) f).id ∈ i :: fl := by
      by_cases hc : f.id = i
      · intro _
        rw [hid2, hc]
        exact List.mem_cons_self _ _
      · have heq : applyEv1 (UploadEv.start i) f = f := by simp [applyEv1, hc]
        rw [heq]
        intro hup
        exact List.mem_cons_of_mem _ (hf hup)
    obtain ⟨ihA, ihB⟩ := ih (applyEv1 (UploadEv.start i) f) hf2
    refine ⟨ihA, ?_⟩
    intro p hp hup
    rcases prefix_cons_cases hp with rfl | ⟨p2, rfl, hp2⟩
    · exact Or.inl (hf hup)
    · rcases ihB p2 hp2 hup with hmem | hmem
      · rw [hid2] at hmem
        rcases List.mem_cons.mp hmem with heq | hmem2
        · exact Or.inr (heq ▸ hi)
        · exact Or.inl hmem2
      · rw [hid2] at hmem
        exact Or.inr (List.mem_of_mem_erase hmem)
  | @progress ns fl t i p0 hi hrec ih =>
    intro f hf
    have hid2 : (applyEv1 (UploadEv.progress i p0) f).id = f.id := applyEv1_id _ _
    have hst : (applyEv1 (UploadEv.progress i p0) f).status = f.status := by
      simp only [applyEv1]
      split <;> rfl
    have hf2 : (applyEv1 (UploadEv.progress i p0) f).status = UStatus.uploading →
        (applyEv1 (UploadEv.progress i p0) f).id ∈ fl := by
      intro hup
      rw [hid2]
      exact hf (hst ▸ hup)
    obtain ⟨ihA, ihB⟩ := ih (applyEv1 (UploadEv.progress i p0) f) hf2
    refine ⟨ihA, ?_⟩
    intro p hp hup
    rcases prefix_cons_cases hp with rfl | ⟨p2, rfl, hp2⟩
    · exact Or.inl (hf hup)
    · rcases ihB p2 hp2 hup with hmem | hmem
      · rw [hid2] at hmem
        exact Or.inl hmem
      · rw [hid2] at hmem
        exact Or.inr hmem
  | @settle ns fl t i ok msg hi hrec ih =>
    intro f hf
    have hid2 : (applyEv1 (UploadEv.settle i ok msg) f).id = f.id := applyEv1_id _ _
    have hf2 : (applyEv1 (UploadEv.settle i ok msg) f).status = UStatus.uploading →
        (applyEv1 (UploadEv.settle i ok msg) f).id ∈ fl.erase i := by
      by_cases hc : f.id = i
      · intro hup
        exfalso
        have : (applyEv1 (UploadEv.settle i ok msg) f).status ≠ UStatus.uploading := by
          simp only [applyEv1, hc, if_pos]
          cases ok <;> simp
        exact this hup
      · have heq : applyEv1 (UploadEv.settle i ok msg) f = f := by simp [applyEv1, hc]
        rw [heq]
        intro hup
        exact (List.mem_erase_of_ne hc).mpr (hf hup)
    obtain ⟨ihA, ihB⟩ := ih (applyEv1 (UploadEv.settle i ok msg) f) hf2
    refine ⟨ihA, ?_⟩
    intro p hp hup
    rcases prefix_cons_cases hp with rfl | ⟨p2, rfl, hp2⟩
    · exact Or.inl (hf hup)
    · rcases ihB p2 hp2 hup with hmem | hmem
      · rw [hid2] at hmem
        exact Or.inl (List.mem_of_mem_erase hmem)
      · rw [hid2] at hmem
        exact Or.inr hmem

lemma chunkExec_state {c : List String} {t : List UploadEv} (h : ChunkExec c [] t)
    (st : List UploadingFile) (hst : ∀ f ∈ st, f.status ≠ UStatus.uploading) :
    (∀ f ∈ applyTrace t st, f.status ≠ UStatus.uploading) ∧
    (∀ p, p <+: t → ∀ f ∈ st, (applyEvF p f).status = UStatus.uploading → f.id ∈ c) := by
  constructor
  · intro g hg
    rw [applyTrace_eq_map] at hg
    obtain ⟨f, hf, rfl⟩ := List.mem_map.mp hg
    exact (chunkExec_entry h f (fun hup => absurd hup (hst f hf))).1
  · intro p hp f hf hup
    rcases (chunkExec_entry h f (fun hup2 => absurd hup2 (hst f hf))).2 p hp hup with h1 | h1
    · exact absurd h1 (List.not_mem_nil _)
    · exact h1

lemma countP_id_mem_le (st : List UploadingFile) :
    ∀ c : List String, (st.map (fun f => f.id)).Nodup →
      st.countP (fun f => decide (f.id ∈ c)) ≤ c.length := by
  induction st with
  | nil => intro c _; simp
  | cons f st ih =>
    intro c hnd
    simp only [List.map_cons, List.nodup_cons] at hnd
    obtain ⟨hfid, hnd2⟩ := hnd
    rw [List.countP_cons]
    by_cases hc : f.id ∈ c
    · have h1 : st.countP (fun g => decide (g.id ∈ c)) ≤
          st.countP (fun g => decide (g.id ∈ c.erase f.id)) := by
        apply List.countP_mono_left
        intro x hx hxc
        have hne : x.id ≠ f.id := by
          intro he
          exact hfid (he ▸ List.mem_map_of_mem _ hx)
        simp only [decide_eq_true_eq] at hxc ⊢
        exact (List.mem_erase_of_ne hne).mpr hxc
      have h2 := ih (c.erase f.id) hnd2
      have h3 : (c.erase f.id).length = c.length - 1 := List.length_erase_of_mem hc
      have h4 : 1 ≤ c.length := List.length_pos.mpr (List.ne_nil_of_mem hc)
      simp only [hc, decide_eq_true_eq, if_pos]
      omega
    · have h2 := ih c hnd2
      rw [decide_eq_false hc]
      simp only [Bool.false_eq_true, if_false]
      omega

lemma countUploading_map_le_of (st : List UploadingFile) (g : UploadingFile → UploadingFile)
    (c : List String) (hnd : (st.map (fun f => f.id)).Nodup)
    (h : ∀ f ∈ st, (g f).status = UStatus.uploading → f.id ∈ c) :
    countUploading (st.map g) ≤ c.length := by
  rw [countUploading, List.countP_map]
  refine le_trans (List.countP_mono_left ?_) (countP_id_mem_le st c hnd)
  intro x hx hxp
  simp only [Function.comp, decide_eq_true_eq] at hxp ⊢
  exact h x hx hxp

lemma chunkedRun_bound (n : Nat) :
    ∀ {chunks : List (List String)} {tr : List UploadEv}, ChunkedRun chunks tr →
      ∀ st : List UploadingFile, (∀ f ∈ st, f.status ≠ UStatus.uploading) →
        ((st.map (fun f => f.id)).Nodup) → (∀ c ∈ chunks, c.length ≤ n) →
        ∀ p, p <+: tr → countUploading (applyTrace p st) ≤ n := by
  intro chunks tr h
  induction h with
  | nil =>
    intro st hst _ _ p hp
    have hpe : p = [] := List.prefix_nil.mp hp
    subst hpe
    rw [applyTrace_nil, countUploading, List.countP_eq_zero.mpr]
    · exact Nat.zero_le n
    · intro f hf
      simp [hst f hf]
  | @cons c cs t trest hc hrun ih =>
    intro st hst hnd hbnd p hp
    rcases prefix_append_cases hp with hp1 | ⟨q, rfl, hq⟩
    · rw [applyTrace_eq_map]
      refine le_trans (countUploading_map_le_of st (applyEvF p) c hnd ?_)
        (hbnd c (List.mem_cons_self _ _))
      exact (chunkExec_state hc st hst).2 p hp1
    · rw [applyTrace_append]
      refine ih (applyTrace t st) (chunkExec_state hc st hst).1 ?_ ?_ q hq
      · rw [applyTrace_map_id]
        exact hnd
      · exact fun c2 hc2 => hbnd c2 (List.mem_cons_of_mem _ hc2)

lemma chunksOfAux_join {α : Type} (n : Nat) (hn : 1 ≤ n) :
    ∀ (fuel : Nat) (l : List α), l.length < fuel → (chunksOfAux n fuel l).flatten = l := by
  intro fuel
  induction fuel with
  | zero => intro l hl; exact absurd hl (Nat.not_lt_zero _)
  | succ fuel ih =>
    intro l hl
    cases l with
    | nil => rfl
    | cons x xs =>
      simp only [chunksOfAux, List.flatten_cons]
      rw [ih (xs.drop (n - 1)) (by simp only [List.length_drop]; simp at hl; omega)]
      cases n with
      | zero => omega
      | succ m =>
        simp only [List.take_succ_cons, Nat.succ_sub_one, List.cons_append,
          List.take_append_drop]

lemma chunksOf_join {α : Type} (n : Nat) (hn : 1 ≤ n) (l : List α) :
    (chunksOf n l).flatten = l :=
  chunksOfAux_join n hn _ l (Nat.lt_succ_self _)

lemma chunksOfAux_length_le {α : Type} (n : Nat) :
    ∀ (fuel : Nat) (l : List α), ∀ c ∈ chunksOfAux n fuel l, c.length ≤ n := by
  intro fuel
  induction fuel with
  | zero => intro l c hc; simp [chunksOfAux] at hc
  | succ fuel ih =>
    intro l c hc
    cases l with
    | nil => simp [chunksOfAux] at hc
    | cons x xs =>
      simp only [chunksOfAux, List.mem_cons] at hc
      rcases hc with rfl | hc
      · simp only [List.length_take]
        omega
      · exact ih _ c hc

lemma chunksOf_length_le {α : Type} (n : Nat) (l : List α) :
    ∀ c ∈ chunksOf n l, c.length ≤ n :=
  fun c hc => chunksOfAux_length_le n _ l c hc

/-- C6: for every file list and every concurrency limit in the selectable
1-10 range, `uploadInParallel` partitions the files into consecutive chunks
of at most the limit (their concatenation is the file list), starts a chunk
only after the previous chunk has fully settled (built into `ChunkedRun`),
and along every run, at every point, at most `n` files are simultaneously in
the `uploading` status. -/
theorem uploadInParallel_concurrency_bound (n : Nat) (files : List UploadingFile)
    (tr : List UploadEv) (hn1 : 1 ≤ n) (hn10 : n ≤ 10)
    (hids : (files.map (fun f => f.id)).Nodup)
    (hinit : ∀ f ∈ files, f.status ≠ UStatus.uploading)
    (hrun : ChunkedRun ((chunksOf n files).map (List.map (fun f => f.id))) tr) :
    (chunksOf n files).flatten = files ∧
    (∀ c ∈ chunksOf n files, c.length ≤ n) ∧
    (∀ p, p <+: tr → countUploading (applyTrace p files) ≤ n) := by
  refine ⟨chunksOf_join n hn1 files, chunksOf_length_le n files, ?_⟩
  intro p hp
  refine chunkedRun_bound n hrun files hinit hids ?_ p hp
  intro c2 hc2
  obtain ⟨c, hcmem, rfl⟩ := List.mem_map.mp hc2
  rw [List.length_map]
  exact chunksOf_length_le n files c hcmem


lemma sampleChunkedRun7 :
    ChunkedRun ((chunksOf 3 sampleFiles7).map (List.map (fun f => f.id))) sampleTrace7 := by
  have h1 : ChunkExec ["f1", "f2", "f3"] []
      [UploadEv.start "f1", UploadEv.start "f2", UploadEv.start "f3",
       UploadEv.settle "f1" true "", UploadEv.settle "f2" true "",
       UploadEv.settle "f3" true ""] :=
    ChunkExec.start "f1" (by decide) (ChunkExec.start "f2" (by decide)
      (ChunkExec.start "f3" (by decide) (ChunkExec.settle "f1" true "" (by decide)
        (ChunkExec.settle "f2" true "" (by decide) (ChunkExec.settle "f3" true "" (by decide)
          ChunkExec.done)))))
  have h2 : ChunkExec ["f4", "f5", "f6"] []
      [UploadEv.start "f4", UploadEv.start "f5", UploadEv.start "f6",
       UploadEv.settle "f4" true "", UploadEv.settle "f5" true "",
       UploadEv.settle "f6" true ""] :=
    ChunkExec.start "f4" (by decide) (ChunkExec.start "f5" (by decide)
      (ChunkExec.start "f6" (by decide) (ChunkExec.settle "f4" true "" (by decide)
        (ChunkExec.settle "f5" true "" (by decide) (ChunkExec.settle "f6" true "" (by decide)
          ChunkExec.done)))))
  have h3 : ChunkExec ["f7"] [] [UploadEv.start "f7", UploadEv.settle "f7" true ""] :=
    ChunkExec.start "f7" (by decide)
      (ChunkExec.settle "f7" true "" (by decide) ChunkExec.done)
  exact ChunkedRun.cons h1 (ChunkedRun.cons h2 (ChunkedRun.cons h3 ChunkedRun.nil))

/-- C6 witness: seven files with cap 3; after the first three starts the
uploading count is within the cap. -/
theorem uploadInParallel_concurrency_bound_witness :
    countUploading (applyTrace (sampleTrace7.take 3) sampleFiles7) ≤ 3 :=
  (uploadInParallel_concurrency_bound 3 sampleFiles7 sampleTrace7 (by decide) (by decide)
    (by decide) (by decide) sampleChunkedRun7).2.2 (sampleTrace7.take 3)
    ⟨sampleTrace7.drop 3, List.take_append_drop 3 sampleTrace7⟩

/-! ## C5: the two file-size formatters at the boundary values -/

lemma ratFloor_eq_intFloor (q : ℚ) : Rat.floor q = ⌊q⌋ := by
  rw [Rat.floor_def', Rat.floor_def]

lemma ratFloor_eq_of (q : ℚ) (z : ℤ) (h1 : (z : ℚ) ≤ q) (h2 : q < z + 1) :
    Rat.floor q = z := by
  rw [ratFloor_eq_intFloor]
  exact Int.floor_eq_iff.mpr ⟨h1, h2⟩

lemma ratToFixed2_one : ratToFixed2 1 = "1.00" := by
  have h : Rat.floor ((1 : ℚ) * 100 + 1 / 2) = 100 :=
    ratFloor_eq_of _ 100 (by norm_num) (by norm_num)
  simp only [ratToFixed2, h]
  decide

lemma formatFileSize_1024 (jsLog : ℚ → ℚ) (h1 : jsLog 1024 ≠ 0) :
    formatFileSize jsLog (JSNum.val 1024) = "1.00 KB" := by
  have hz : jsStrictEqZero (JSNum.val 1024) = false := by
    simp [jsStrictEqZero]
  have hlt : jsLtZero (JSNum.val 1024) = false := by
    simp [jsLtZero]
  have hlog : jsLogN jsLog (JSNum.val 1024) = JSNum.val (jsLog 1024) := by
    simp [jsLogN]
  have hdiv : jsDiv (JSNum.val (jsLog 1024)) (JSNum.val (jsLog 1024)) = JSNum.val 1 := by
    simp [jsDiv, div_self h1]
  have hfl : jsFloor (JSNum.val 1) = JSNum.val 1 := by
    have : Rat.floor (1 : ℚ) = 1 := ratFloor_eq_of _ 1 (by norm_num) (by norm_num)
    simp [jsFloor, this]
  have hmin : jsMinConst (JSNum.val 1) 5 = JSNum.val 1 := by
    simp [jsMinConst]
  have hpow : jsPow 1024 (JSNum.val 1) = JSNum.val 1024 := by
    simp [jsPow, ratPowNat]
  have hdiv2 : jsDiv (JSNum.val 1024) (JSNum.val 1024) = JSNum.val 1 := by
    have : (1024 : ℚ) ≠ 0 := by norm_num
    simp [jsDiv, div_self this]
  simp only [formatFileSize, hz, hlt, jsIsNaN, Bool.or_false, if_false, hlog, hdiv, hfl, hmin,
    hpow, hdiv2, jsToFixed2, ratToFixed2_one, Bool.false_or]
  decide

lemma formatFileSize_GB (jsLog : ℚ → ℚ) (h1 : jsLog 1024 ≠ 0)
    (h2 : jsLog 1073741824 = 3 * jsLog 1024) :
    formatFileSize jsLog (JSNum.val 1073741824) = "1.00 GB" := by
  have hz : jsStrictEqZero (JSNum.val 1073741824) = false := by
    simp [jsStrictEqZero]
  have hlt : jsLtZero (JSNum.val 1073741824) = false := by
    simp [jsLtZero]
  have hlog : jsLogN jsLog (JSNum.val 1073741824) = JSNum.val (3 * jsLog 1024) := by
    simp [jsLogN, h2]
  have hlog2 : jsLogN jsLog (JSNum.val 1024) = JSNum.val (jsLog 1024) := by
    simp [jsLogN]
  have hdiv : jsDiv (JSNum.val (3 * jsLog 1024)) (JSNum.val (jsLog 1024)) = JSNum.val 3 := by
    simp [jsDiv, mul_div_assoc, div_self h1]
  have hfl : jsFloor (JSNum.val 3) = JSNum.val 3 := by
    have : Rat.floor (3 : ℚ) = 3 := ratFloor_eq_of _ 3 (by norm_num) (by norm_num)
    simp [jsFloor, this]
  have hmin : jsMinConst (JSNum.val 3) 5 = JSNum.val 3 := by
    simp [jsMinConst]
    norm_num
  have hpow : jsPow 1024 (JSNum.val 3) = JSNum.val 1073741824 := by
    simp [jsPow, ratPowNat]
    norm_num
  have hdiv2 : jsDiv (JSNum.val 1073741824) (JSNum.val 1073741824) = JSNum.val 1 := by
    have : (1073741824 : ℚ) ≠ 0 := by norm_num
    simp [jsDiv, div_self this]
  simp only [formatFileSize, hz, hlt, jsIsNaN, Bool.or_false, if_false, hlog, hlog2, hdiv, hfl,
    hmin, hpow, hdiv2, jsToFixed2, ratToFixed2_one, Bool.false_or]
  decide

lemma jsParseFloat_100 : jsParseFloat "1.00" = JSNum.val 1 := by
  have h : jsParseFloat "1.00" =
      JSNum.val (((1 : ℕ) : ℚ) + ((0 : ℕ) : ℚ) / ratPowNat 10 2) := rfl
  rw [h]
  norm_num [ratPowNat]

lemma formatFileSizeModal_1024 (jsLog : ℚ → ℚ) (h1 : jsLog 1024 ≠ 0) :
    formatFileSizeModal jsLog (JSNum.val 1024) = "1 KB" := by
  have hz : jsStrictEqZero (JSNum.val 1024) = false := by
    simp [jsStrictEqZero]
  have hlt : jsLtZero (JSNum.val 1024) = false := by
    simp [jsLtZero]
  have hlog : jsLogN jsLog (JSNum.val 1024) = JSNum.val (jsLog 1024) := by
    simp [jsLogN]
  have hdiv : jsDiv (JSNum.val (jsLog 1024)) (JSNum.val (jsLog 1024)) = JSNum.val 1 := by
    simp [jsDiv, div_self h1]
  have hfl : jsFloor (JSNum.val 1) = JSNum.val 1 := by
    have : Rat.floor (1 : ℚ) = 1 := ratFloor_eq_of _ 1 (by norm_num) (by norm_num)
    simp [jsFloor, this]
  have hmin : jsMinConst (JSNum.val 1) 4 = JSNum.val 1 := by
    simp [jsMinConst]
  have hpow : jsPow 1024 (JSNum.val 1) = JSNum.val 1024 := by
    simp [jsPow, ratPowNat]
  have hdiv2 : jsDiv (JSNum.val 1024) (JSNum.val 1024) = JSNum.val 1 := by
    have : (1024 : ℚ) ≠ 0 := by norm_num
    simp [jsDiv, div_self this]
  simp only [formatFileSizeModal, hz, hlt, if_false, hlog, hdiv, hfl, hmin, hpow, hdiv2,
    jsToFixed2, ratToFixed2_one, jsParseFloat_100, Bool.false_or]
  decide

lemma formatFileSizeModal_GB (jsLog : ℚ → ℚ) (h1 : jsLog 1024 ≠ 0)
    (h2 : jsLog 1073741824 = 3 * jsLog 1024) :
    formatFileSizeModal jsLog (JSNum.val 1073741824) = "1 GB" := by
  have hz : jsStrictEqZero (JSNum.val 1073741824) = false := by
    simp [jsStrictEqZero]
  have hlt : jsLtZero (JSNum.val 1073741824) = false := by
    simp [jsLtZero]
  have hlog : jsLogN jsLog (JSNum.val 1073741824) = JSNum.val (3 * jsLog 1024) := by
    simp [jsLogN, h2]
  have hlog2 : jsLogN jsLog (JSNum.val 1024) = JSNum.val (jsLog 1024) := by
    simp [jsLogN]
  have hdiv : jsDiv (JSNum.val (3 * jsLog 1024)) (JSNum.val (jsLog 1024)) = JSNum.val 3 := by
    simp [jsDiv, mul_div_assoc, div_self h1]
  have hfl : jsFloor (JSNum.val 3) = JSNum.val 3 := by
    have : Rat.floor (3 : ℚ) = 3 := ratFloor_eq_of _ 3 (by norm_num) (by norm_num)
    simp [jsFloor, this]
  have hmin : jsMinConst (JSNum.val 3) 4 = JSNum.val 3 := by
    simp [jsMinConst]
    norm_num
  have hpow : jsPow 1024 (JSNum.val 3) = JSNum.val 1073741824 := by
    simp [jsPow, ratPowNat]
    norm_num
  have hdiv2 : jsDiv (JSNum.val 1073741824) (JSNum.val 1073741824) = JSNum.val 1 := by
    have : (1073741824 : ℚ) ≠ 0 := by norm_num
    simp [jsDiv, div_self this]
  simp only [formatFileSizeModal, hz, hlt, if_false, hlog, hlog2, hdiv, hfl, hmin, hpow, hdiv2,
    jsToFixed2, ratToFixed2_one, jsParseFloat_100, Bool.false_or]
  decide

/-- C5 (amended): both formatters return their zero label on zero and
negative input, and the page formatter also on NaN; the upload-modal
formatter has no NaN guard, so NaN input produces `NaN undefined` instead of
`0 Bytes`; at 1024 and 1073741824 bytes the page formatter prints `1.00 KB`
and `1.00 GB`, while the parseFloat wrapper of the modal formatter strips the
trailing zero decimals, printing `1 KB` and `1 GB`.  The unit index comes
from the floating-point quotient of Math.log values, abstracted here as
`jsLog`; the hypotheses state the two facts about it the exact logarithm
satisfies (log 1024 is nonzero and log of 1024^3 is three times log 1024). -/
theorem formatFileSize_boundary_table (jsLog : ℚ → ℚ)
    (h1 : jsLog 1024 ≠ 0) (h2 : jsLog 1073741824 = 3 * jsLog 1024) :
    formatFileSize jsLog (JSNum.val 0) = "0 B" ∧
    formatFileSizeModal jsLog (JSNum.val 0) = "0 Bytes" ∧
    (∀ q : ℚ, q < 0 → formatFileSize jsLog (JSNum.val q) = "0 B" ∧
      formatFileSizeModal jsLog (JSNum.val q) = "0 Bytes") ∧
    formatFileSize jsLog JSNum.nan = "0 B" ∧
    formatFileSizeModal jsLog JSNum.nan = "NaN undefined" ∧
    formatFileSize jsLog (JSNum.val 1024) = "1.00 KB" ∧
    formatFileSizeModal jsLog (JSNum.val 1024) = "1 KB" ∧
    formatFileSize jsLog (JSNum.val 1073741824) = "1.00 GB" ∧
    formatFileSizeModal jsLog (JSNum.val 1073741824) = "1 GB" := by
  refine ⟨?_, ?_, ?_, ?_, ?_, ?_, ?_, ?_, ?_⟩
  · simp [formatFileSize, jsStrictEqZero]
  · simp [formatFileSizeModal, jsStrictEqZero]
  · intro q hq
    have h0 : decide (q = 0) = false := decide_eq_false (ne_of_lt hq)
    have hneg : decide (q < 0) = true := decide_eq_true hq
    constructor
    · simp [formatFileSize, jsStrictEqZero, jsLtZero, h0, hneg]
    · simp [formatFileSizeModal, jsStrictEqZero, jsLtZero, h0, hneg]
  · rfl
  · rfl
  · exact formatFileSize_1024 jsLog h1
  · exact formatFileSizeModal_1024 jsLog h1
  · exact formatFileSize_GB jsLog h1 h2
  · exact formatFileSizeModal_GB jsLog h1 h2

/-- C5 witness: the boundary table applied to the concrete log stand-in. -/
theorem formatFileSize_boundary_table_witness :
    formatFileSizeModal jsLogStub (JSNum.val 1024) = "1 KB" ∧
    formatFileSize jsLogStub (JSNum.val 1073741824) = "1.00 GB" :=
  ⟨(formatFileSize_boundary_table jsLogStub (by decide) rfl).2.2.2.2.2.2.1,
   (formatFileSize_boundary_table jsLogStub (by decide) rfl).2.2.2.2.2.2.2.1⟩

/-- C5 counterexample: the upload-modal formatter on NaN input returns
`NaN undefined`, not its zero label `0 Bytes` as the claim states. -/
theorem formatFileSizeModal_nan_counterexample :
    formatFileSizeModal jsLogStub JSNum.nan = "NaN undefined" ∧
    formatFileSizeModal jsLogStub JSNum.nan ≠ "0 Bytes" := by
  exact ⟨rfl, by decide⟩
